import Mathlib

/-!
# nmtscope: report store and parsing engine

A shallow embedding of `server/parser/parser.go`, `server/utils/strings.go`,
`server/constants/nmt-patterns.go`, `server/types/nmt.go` and of the file name
built by `server/nmt/nmt.go`, together with the library routines they call
(`strings.TrimSpace`, `strings.CutSuffix`, `strings.Split`, `strconv.Atoi`,
`strconv.ParseInt`, `filepath.Base`, the two regular expressions, and the
`time` arithmetic of the retention check).

Conventions of the embedding:
* a Go string is the list of its code points (`GoString`); strings are taken
  to be valid UTF-8;
* Go `int` is the 64-bit `int`; machine integers are `Int`/`Nat` with explicit
  wrap-around where the source can overflow;
* the file system and the clock are explicit inputs of the directory scan.
-/

namespace NMTScope

/-- A Go string, as the list of its code points. -/
abbrev GoString := List Char

/-! ## The package `strings` -/

/-- The predicate `unicode.IsSpace`, which `strings.TrimSpace` trims by. -/
def isSpace (c : Char) : Bool :=
  let n := c.toNat
  n = 0x09 || n = 0x0A || n = 0x0B || n = 0x0C || n = 0x0D || n = 0x20 ||
  n = 0x85 || n = 0xA0 || n = 0x1680 || (0x2000 ≤ n && n ≤ 0x200A) ||
  n = 0x2028 || n = 0x2029 || n = 0x202F || n = 0x205F || n = 0x3000

/-- Go `strings.TrimSpace` (which `utils.TrimSpace` forwards to): leading and
trailing white space removed. -/
def TrimSpace (s : GoString) : GoString :=
  ((s.dropWhile isSpace).reverse.dropWhile isSpace).reverse

/-- Go `strings.HasSuffix`. -/
def HasSuffix (s suffix : GoString) : Bool :=
  decide (suffix.length ≤ s.length) && (s.drop (s.length - suffix.length) == suffix)

/-- Go `strings.CutSuffix`: the string without the suffix and whether the
suffix was found. -/
def CutSuffix (s suffix : GoString) : GoString × Bool :=
  if HasSuffix s suffix then (s.take (s.length - suffix.length), true) else (s, false)

/-- Go `strings.Split(s, sep)` for a separator `sep` of one character, as in
`strings.Split(reportFileName, "_")`: the pieces between the occurrences of
the separator, in order; a string without separator is its single piece. -/
def Split (s : GoString) (sep : Char) : List GoString :=
  match s with
  | [] => [[]]
  | c :: cs =>
    if c = sep then [] :: Split cs sep
    else
      match Split cs sep with
      | [] => [[c]]
      | p :: ps => (c :: p) :: ps

/-! ## The package `strconv` -/

/-- The bound `1<<63`. -/
def twoPow63 : Nat := 9223372036854775808

/-- The bound `1<<64`. -/
def twoPow64 : Nat := 18446744073709551616

/-- Value of a decimal digit character, `none` for any other character. -/
def digitVal (c : Char) : Option Nat :=
  if 48 ≤ c.toNat ∧ c.toNat ≤ 57 then some (c.toNat - 48) else none

/-- Outcome of `strconv.ParseUint`: the value returned and the error kind. -/
inductive NumErr where
  | ok
  | syntaxErr
  | rangeErr
  deriving DecidableEq, Repr

/-- The digit loop of `strconv.ParseUint(s, 10, 64)`: a character that is no
decimal digit is a syntax error with value 0; when `n*10` or `n*10+d` leaves
`uint64` the loop stops at once with `maxUint64` and a range error. -/
def parseUintLoop (n : Nat) : GoString → Nat × NumErr
  | [] => (n, NumErr.ok)
  | c :: cs =>
    match digitVal c with
    | none => (0, NumErr.syntaxErr)
    | some d =>
      if n ≥ twoPow64 / 10 + 1 then (twoPow64 - 1, NumErr.rangeErr)
      else
        let n10 := n * 10
        let n1 := (n10 + d) % twoPow64
        if n1 < n10 ∨ n1 > twoPow64 - 1 then (twoPow64 - 1, NumErr.rangeErr)
        else parseUintLoop n1 cs

/-- Go `strconv.ParseUint(s, 10, 64)`. -/
def ParseUint (s : GoString) : Nat × NumErr :=
  match s with
  | [] => (0, NumErr.syntaxErr)
  | _ => parseUintLoop 0 s

/-- Go `strconv.ParseInt(s, 10, 64)`, value and error kind: an optional sign,
then `ParseUint`; a syntax error gives 0, a value out of `int64` gives the
nearest bound together with a range error. -/
def strconvParseInt (s : GoString) : Int × NumErr :=
  match s with
  | [] => (0, NumErr.syntaxErr)
  | c :: cs =>
    let neg := decide (c = '-')
    let body := if c = '+' ∨ c = '-' then cs else c :: cs
    match ParseUint body with
    | (_, NumErr.syntaxErr) => (0, NumErr.syntaxErr)
    | (un, _) =>
      if ¬ neg ∧ un ≥ twoPow63 then ((twoPow63 : Int) - 1, NumErr.rangeErr)
      else if neg ∧ un > twoPow63 then (-(twoPow63 : Int), NumErr.rangeErr)
      else (if neg then -(un : Int) else (un : Int), NumErr.ok)

/-- Length of a Go string in bytes (its UTF-8 encoding). -/
def byteLen (s : GoString) : Nat := (s.map Char.utf8Size).sum

/-- The digit loop of the fast path of `strconv.Atoi`. -/
def atoiFastLoop (n : Int) : GoString → Option Int
  | [] => some n
  | c :: cs =>
    match digitVal c with
    | none => none
    | some d => atoiFastLoop (n * 10 + d) cs

/-- Go `strconv.Atoi` on a 64-bit platform, value and error kind: strings of
1 to 18 bytes take the fast path, every other string goes through
`ParseInt(s, 10, 0)`. -/
def Atoi (s : GoString) : Int × NumErr :=
  if 0 < byteLen s ∧ byteLen s < 19 then
    match s with
    | [] => (0, NumErr.syntaxErr)
    | c :: cs =>
      let body := if c = '-' ∨ c = '+' then cs else c :: cs
      if body.length < 1 then (0, NumErr.syntaxErr)
      else
        match atoiFastLoop 0 body with
        | none => (0, NumErr.syntaxErr)
        | some n => (if c = '-' then -n else n, NumErr.ok)
  else strconvParseInt s

/-- The helper `utils.ParseInt`: `strconv.Atoi` with the error dropped. -/
def ParseInt (s : GoString) : Int := (Atoi s).1

/-- The helper `utils.ParseInt64`: `strconv.ParseInt(s, 10, 64)` with the error
dropped. -/
def ParseInt64 (s : GoString) : Int := (strconvParseInt s).1

/-! ## The artifact naming codec -/

/-- The errors `parseReportFileName` builds with `fmt.Errorf`, each with the
string it prints. -/
inductive DecodeError where
  /-- The error "invalid file name format: %s". -/
  | invalidFormat (name : GoString)
  /-- The error "invalid pid: %s". -/
  | invalidPid (token : GoString)
  /-- The error "invalid ts: %s". -/
  | invalidTs (token : GoString)
  deriving DecidableEq, Repr

/-- Go `parseReportFileName`: the triple `(pid, ts, err)` it returns. -/
def parseReportFileName (reportFileName : GoString) : Int × Int × Option DecodeError :=
  let reportFileName := TrimSpace reportFileName
  let reportFileName := (CutSuffix reportFileName ".txt".toList).1
  let parts := Split reportFileName '_'
  match parts with
  | [p0, p1, p2] =>
    if p0 ≠ "nmt".toList then (0, 0, some (DecodeError.invalidFormat reportFileName))
    else
      let pid := ParseInt p1
      if pid ≤ 0 then (0, 0, some (DecodeError.invalidPid p1))
      else
        let ts := ParseInt64 p2
        if ts ≤ 0 then (0, 0, some (DecodeError.invalidTs p2))
        else (pid, ts, none)
  | _ => (0, 0, some (DecodeError.invalidFormat reportFileName))

/-- Decimal rendering of an integer by the verb `%d` of `fmt.Sprintf`. -/
def formatInt (n : Int) : GoString :=
  if n < 0 then '-' :: Nat.toDigits 10 n.natAbs else Nat.toDigits 10 n.natAbs

/-- The file name `GenerateNMTReport` builds, the part of
`fmt.Sprintf("%s/nmt_%d_%d.txt", reportDir, pid, ts)` after the directory. -/
def reportName (pid ts : Int) : GoString :=
  "nmt_".toList ++ formatInt pid ++ "_".toList ++ formatInt ts ++ ".txt".toList

/-! ## Decimal numerals -/

/-- A string all of whose characters are decimal digits. -/
def allDigits (s : GoString) : Prop := ∀ c ∈ s, (digitVal c).isSome = true

/-- The number a string of decimal digits denotes, continuing from `acc`. -/
def decValueFrom (acc : Nat) (s : GoString) : Nat :=
  s.foldl (fun n c => n * 10 + (digitVal c).getD 0) acc

/-- The number a string of decimal digits denotes. -/
def decValue (s : GoString) : Nat := decValueFrom 0 s

/-! ## The regular expressions of `constants/nmt-patterns.go` -/

/-- The character classes the two patterns use. -/
inductive CharClass where
  /-- The class `\s` of Go regexp: tab, line feed, form feed, carriage return, space. -/
  | space
  /-- The class `\d`: the ASCII digits. -/
  | digit
  /-- The dot: any character but line feed. -/
  | dot
  deriving DecidableEq, Repr

/-- Membership of a character in a class. -/
def CharClass.test : CharClass → Char → Bool
  | CharClass.space, c =>
    c.toNat = 0x09 || c.toNat = 0x0A || c.toNat = 0x0C || c.toNat = 0x0D || c.toNat = 0x20
  | CharClass.digit, c => (digitVal c).isSome
  | CharClass.dot, c => c.toNat != 0x0A

/-- The repetition operators the two patterns use. -/
inductive Quant where
  /-- The greedy `+`. -/
  | plus
  /-- The greedy `*`. -/
  | star
  /-- The lazy `*?`. -/
  | lazyStar
  deriving DecidableEq, Repr

/-- One item of a pattern: a literal string, or a repeated character class,
which may be a capture group. -/
inductive Item where
  | lit (s : GoString)
  | rep (capture : Bool) (q : Quant) (cls : CharClass)
  deriving DecidableEq, Repr

/-- A pattern anchored at the start of the text by `^`: its items in order. -/
abbrev Regex := List Item

/-- The text after the literal `s` when the text starts with it. -/
def stripLit : GoString → GoString → Option GoString
  | [], inp => some inp
  | _ :: _, [] => none
  | c :: cs, x :: xs => if c = x then stripLit cs xs else none

/-- Greedy repetition of a class: the longest run first, then shorter ones,
each handed to the continuation `k` with the text matched and the text left. -/
def greedyStar {α : Type} (p : Char → Bool) (k : GoString → GoString → Option α) :
    GoString → GoString → Option α
  | acc, [] => k acc []
  | acc, c :: cs =>
    if p c then
      match greedyStar p k (acc ++ [c]) cs with
      | some r => some r
      | none => k acc (c :: cs)
    else k acc (c :: cs)

/-- Lazy repetition of a class: the shortest run first, then longer ones. -/
def lazyStar {α : Type} (p : Char → Bool) (k : GoString → GoString → Option α) :
    GoString → GoString → Option α
  | acc, [] => k acc []
  | acc, c :: cs =>
    match k acc (c :: cs) with
    | some r => some r
    | none => if p c then lazyStar p k (acc ++ [c]) cs else none

/-- Repetition by a given operator. -/
def repeatClass {α : Type} (q : Quant) (p : Char → Bool)
    (k : GoString → GoString → Option α) (inp : GoString) : Option α :=
  match q with
  | Quant.star => greedyStar p k [] inp
  | Quant.lazyStar => lazyStar p k [] inp
  | Quant.plus =>
    match inp with
    | [] => none
    | c :: cs => if p c then greedyStar p k [c] cs else none

/-- Backtracking match of a pattern at the start of the text, with the
priorities of Go regexp (leftmost-first): the texts of the capture groups of
the first match found, in order, or `none` when the pattern does not match. -/
def matchItems : Regex → GoString → Option (List GoString)
  | [], _ => some []
  | Item.lit s :: rest, inp =>
    match stripLit s inp with
    | some inp1 => matchItems rest inp1
    | none => none
  | Item.rep capture q cls :: rest, inp =>
    repeatClass q cls.test
      (fun m rem => (matchItems rest rem).map (fun caps => if capture then m :: caps else caps))
      inp

/-- The pattern `^Total:\s+reserved=(\d+)KB,\s+committed=(\d+)KB`. -/
def NMT_TOTAL_HEADER_REGEX : Regex :=
  [Item.lit "Total:".toList, Item.rep false Quant.plus CharClass.space,
   Item.lit "reserved=".toList, Item.rep true Quant.plus CharClass.digit,
   Item.lit "KB,".toList, Item.rep false Quant.plus CharClass.space,
   Item.lit "committed=".toList, Item.rep true Quant.plus CharClass.digit,
   Item.lit "KB".toList]

/-- The pattern
`^-\s+(.*?)\s+\(reserved=(\d+)KB,\s+committed=(\d+)KB.*\)`. -/
def NMT_CATEGORY_HEADER_REGEX : Regex :=
  [Item.lit "-".toList, Item.rep false Quant.plus CharClass.space,
   Item.rep true Quant.lazyStar CharClass.dot, Item.rep false Quant.plus CharClass.space,
   Item.lit "(reserved=".toList, Item.rep true Quant.plus CharClass.digit,
   Item.lit "KB,".toList, Item.rep false Quant.plus CharClass.space,
   Item.lit "committed=".toList, Item.rep true Quant.plus CharClass.digit,
   Item.lit "KB".toList, Item.rep false Quant.star CharClass.dot, Item.lit ")".toList]

/-- The first element of `re.FindAllStringSubmatch(line, -1)` without its
entry 0, when there is a match: both patterns start with `^`, so a match can
only start at the beginning of the line and there is at most one. -/
def FindAllStringSubmatch (re : Regex) (line : GoString) : Option (List GoString) :=
  matchItems re line

/-! ## The text parser -/

/-- Go `types.NMTHeader`; `types.NMTEntry` embeds it and has no other field. -/
structure NMTEntry where
  Name : GoString
  Reserved : Int
  Committed : Int
  deriving DecidableEq, Repr

/-- Go `types.NMTReport`. -/
structure NMTReport where
  PID : Int
  Created : Int
  NMTEntries : List NMTEntry
  deriving DecidableEq, Repr

/-- The body of the loop of `parseNMTEntries` for one line: the entries
appended for it. -/
def parseLine (line : GoString) : List NMTEntry :=
  let line := TrimSpace line
  match FindAllStringSubmatch NMT_TOTAL_HEADER_REGEX line with
  | some caps =>
    [{ Name := "Total".toList, Reserved := ParseInt (caps.getD 0 []),
       Committed := ParseInt (caps.getD 1 []) }]
  | none =>
    match FindAllStringSubmatch NMT_CATEGORY_HEADER_REGEX line with
    | some caps =>
      [{ Name := caps.getD 0 [], Reserved := ParseInt (caps.getD 1 []),
         Committed := ParseInt (caps.getD 2 []) }]
    | none => []

/-- Go `parseNMTEntries`: the loop over the lines, appending to `nmtEntries`. -/
def parseNMTEntries (lines : List GoString) : List NMTEntry :=
  lines.foldl (fun nmtEntries line => nmtEntries ++ parseLine line) []

/-! ## The directory scan -/

/-- Go `filepath.Base` with the separator `/`. -/
def Base (path : GoString) : GoString :=
  if path = [] then ['.']
  else
    let path := (path.reverse.dropWhile (fun c => c = '/')).reverse
    let path := (path.reverse.takeWhile (fun c => c ≠ '/')).reverse
    if path = [] then ['/'] else path

/-- Go `parseNMTReportMetadata`: the report with its identity filled in, or the
decode error. -/
def parseNMTReportMetadata (reportFilepath : GoString) : NMTReport × Option DecodeError :=
  let reportFilename := Base reportFilepath
  match parseReportFileName reportFilename with
  | (_, _, some err) => ({ PID := 0, Created := 0, NMTEntries := [] }, some err)
  | (pid, ts, none) => ({ PID := pid, Created := ts, NMTEntries := [] }, none)

/-- A reading of the wall clock: Unix seconds and the nanoseconds within the
second. -/
structure Clock where
  sec : Int
  nsec : Fin 1000000000
  deriving DecidableEq, Repr

/-- Wrap-around of `int64` arithmetic. -/
def wrapInt64 (x : Int) : Int := (x + 9223372036854775808) % 18446744073709551616 - 9223372036854775808

/-- The duration `-time.Duration(config.CONFIG.Retention)*time.Minute`, in
nanoseconds: `int64` negation and multiplication by `60e9`, both wrapping. -/
def retentionDuration (retention : Int) : Int :=
  wrapInt64 (wrapInt64 (-retention) * 60000000000)

/-- The value of `now.Add(d).Unix()`, following `Time.Add`: the seconds of `d`
truncated toward zero are added, the remainder goes to the nanoseconds with a
carry or borrow of one second. (The saturation of `Time.Add` is left out: it
needs a second count at the edge of `int64`, which no clock reading has.) -/
def addUnix (now : Clock) (d : Int) : Int :=
  let dsec := Int.tdiv d 1000000000
  let nsec := ((now.nsec : Nat) : Int) + Int.tmod d 1000000000
  if nsec ≥ 1000000000 then now.sec + dsec + 1
  else if nsec < 0 then now.sec + dsec - 1
  else now.sec + dsec

/-- The bound
`time.Now().Add(-time.Duration(config.CONFIG.Retention)*time.Minute).Unix()`
of the retention check. -/
def expiryBound (now : Clock) (retention : Int) : Int :=
  addUnix now (retentionDuration retention)

/-- One call of the walk function by `filepath.Walk`, with what the file
system and the clock answer during that call. -/
structure WalkEntry where
  /-- The argument `path`. -/
  path : GoString
  /-- Whether the argument `err` is non-nil. -/
  walkErr : Bool
  /-- The answer of `info.IsDir()`. -/
  isDir : Bool
  /-- The reading of `time.Now()` in this call. -/
  now : Clock
  /-- The answer of `utils.ReadAll(path)`: the lines, or `none` for an error. -/
  content : Option (List GoString)
  /-- Whether `os.Remove(path)` fails when it is run. -/
  removeFails : Bool
  deriving DecidableEq, Repr

/-- The errors the walk function returns. -/
inductive WalkError where
  /-- The error handed in by `filepath.Walk`. -/
  | walk (path : GoString)
  /-- The error of `parseNMTReportMetadata`. -/
  | decode (err : DecodeError)
  /-- The error of `utils.ReadAll`. -/
  | read (path : GoString)
  deriving DecidableEq, Repr

/-- What a scan has done so far: the slice `nmtReports`, the paths for which
`os.Remove` was issued, and the paths logged because removing them failed. -/
structure ScanState where
  reports : List NMTReport
  removed : List GoString
  logged : List GoString
  deriving DecidableEq, Repr

/-- The walk function of `ListNMTReports`, for one entry: the new state and
the error returned to `filepath.Walk`. -/
def walkFn (retention beginTS endTS : Int) (st : ScanState) (e : WalkEntry) :
    ScanState × Option WalkError :=
  if e.walkErr then (st, some (WalkError.walk e.path))
  else if e.isDir then (st, none)
  else if ¬ HasSuffix e.path ".txt".toList then (st, none)
  else
    match parseNMTReportMetadata e.path with
    | (_, some err) => (st, some (WalkError.decode err))
    | (nmtReportMetadata, none) =>
      if nmtReportMetadata.Created < expiryBound e.now retention then
        ({ st with removed := st.removed ++ [e.path],
                   logged := if e.removeFails then st.logged ++ [e.path] else st.logged }, none)
      else if nmtReportMetadata.Created < beginTS ∨ nmtReportMetadata.Created > endTS then
        (st, none)
      else
        match e.content with
        | none => (st, some (WalkError.read e.path))
        | some lines =>
          ({ st with reports := st.reports ++
              [{ nmtReportMetadata with NMTEntries := parseNMTEntries lines }] }, none)

/-- Go `filepath.Walk` over the calls it would make: it stops at the first
call whose walk function returns an error, and returns that error. -/
def Walk (retention beginTS endTS : Int) : List WalkEntry → ScanState →
    ScanState × Option WalkError
  | [], st => (st, none)
  | e :: es, st =>
    match walkFn retention beginTS endTS st e with
    | (st1, some err) => (st1, some err)
    | (st1, none) => Walk retention beginTS endTS es st1

/-- The run of `ListNMTReports`: the final state of the scan and the error
`filepath.Walk` returns, which `ListNMTReports` discards. -/
def scan (retention : Int) (dir : List WalkEntry) (beginTS endTS : Int) :
    ScanState × Option WalkError :=
  Walk retention beginTS endTS dir { reports := [], removed := [], logged := [] }

/-- Go `ListNMTReports`, with the retention setting and the calls of the walk
as explicit inputs: the slice `nmtReports` it returns. -/
def ListNMTReports (retention : Int) (dir : List WalkEntry) (beginTS endTS : Int) :
    List NMTReport :=
  (scan retention dir beginTS endTS).1.reports

/-! ## Notions used to state and prove the properties -/

/-- The text does not start with a character of the class. -/
def headFails (p : Char → Bool) (inp : GoString) : Prop :=
  ∀ c cs, inp = c :: cs → p c = false

/-- A line of the shape of the total header. -/
def totalLine (ws1 r ws2 c : GoString) : GoString :=
  "Total:".toList ++ ws1 ++ "reserved=".toList ++ r ++ "KB,".toList ++ ws2 ++
    "committed=".toList ++ c ++ "KB".toList

/-- A line of the shape of a category header. -/
def categoryLine (ws1 name ws2 r ws3 c tail : GoString) : GoString :=
  "-".toList ++ ws1 ++ name ++ ws2 ++ "(reserved=".toList ++ r ++ "KB,".toList ++ ws3 ++
    "committed=".toList ++ c ++ "KB".toList ++ tail ++ ")".toList

/-- The items of the category pattern after the capture group of the name. -/
def categoryAfterName : Regex :=
  [Item.rep false Quant.plus CharClass.space,
   Item.lit "(reserved=".toList, Item.rep true Quant.plus CharClass.digit,
   Item.lit "KB,".toList, Item.rep false Quant.plus CharClass.space,
   Item.lit "committed=".toList, Item.rep true Quant.plus CharClass.digit,
   Item.lit "KB".toList, Item.rep false Quant.star CharClass.dot, Item.lit ")".toList]

/-- One or more characters of the class `\s`. -/
abbrev isWhite (s : GoString) : Prop := s ≠ [] ∧ ∀ x ∈ s, CharClass.space.test x = true

/-- One or more decimal digits. -/
abbrev isNumeral (s : GoString) : Prop := s ≠ [] ∧ ∀ x ∈ s, (digitVal x).isSome = true

/-- What the walk function decides for one entry. -/
inductive Outcome where
  /-- It returns an error, which stops the walk. -/
  | stop (err : WalkError)
  /-- It returns nil and changes nothing. -/
  | skip
  /-- It issues the removal of the file and returns nil. -/
  | evict
  /-- It appends a report and returns nil. -/
  | keep (r : NMTReport)
  deriving DecidableEq, Repr

/-- The decision of the walk function for an entry; it does not depend on the
state of the scan. -/
def outcome (retention beginTS endTS : Int) (e : WalkEntry) : Outcome :=
  if e.walkErr then Outcome.stop (WalkError.walk e.path)
  else if e.isDir then Outcome.skip
  else if ¬ HasSuffix e.path ".txt".toList then Outcome.skip
  else
    match parseNMTReportMetadata e.path with
    | (_, some err) => Outcome.stop (WalkError.decode err)
    | (m, none) =>
      if m.Created < expiryBound e.now retention then Outcome.evict
      else if m.Created < beginTS ∨ m.Created > endTS then Outcome.skip
      else
        match e.content with
        | none => Outcome.stop (WalkError.read e.path)
        | some lines => Outcome.keep { m with NMTEntries := parseNMTEntries lines }

/-- The effect of a decision on the state of the scan. -/
def applyOutcome (st : ScanState) (e : WalkEntry) : Outcome → ScanState × Option WalkError
  | Outcome.stop err => (st, some err)
  | Outcome.skip => (st, none)
  | Outcome.evict =>
    ({ st with removed := st.removed ++ [e.path],
               logged := if e.removeFails then st.logged ++ [e.path] else st.logged }, none)
  | Outcome.keep r => ({ st with reports := st.reports ++ [r] }, none)

/-- A regular file whose path ends in `.txt` and whose name decodes to the
identity `m`: an artifact, as the walk function sees it. -/
def isArtifact (e : WalkEntry) (m : NMTReport) : Prop :=
  e.walkErr = false ∧ e.isDir = false ∧ HasSuffix e.path ".txt".toList = true ∧
    parseNMTReportMetadata e.path = (m, none)

/-- The call of the walk function for the fixture `nmt_53732_1764484822.txt`
in the directory `../fixtures`, at the clock reading `now`, with the lines
`lines` as its content. -/
def fixtureEntry (now : Clock) (lines : List GoString) (removeFails : Bool) : WalkEntry :=
  { path := "../fixtures/nmt_53732_1764484822.txt".toList, walkErr := false, isDir := false,
    now := now, content := some lines, removeFails := removeFails }

/-- The calls of the walk over `../fixtures` holding only the fixture: the
directory itself, then the file. -/
def fixtureDir (now : Clock) (lines : List GoString) (removeFails : Bool) : List WalkEntry :=
  [{ path := "../fixtures".toList, walkErr := false, isDir := true, now := now,
     content := none, removeFails := false },
   fixtureEntry now lines removeFails]

/-- The token without its leading sign `+` or `-`, when it has one. -/
def unsignedPart (tok : GoString) : GoString :=
  match tok with
  | [] => []
  | c :: cs => if c = '+' ∨ c = '-' then cs else c :: cs

/-- The decimal digits a string starts with. -/
def leadingDigits (s : GoString) : GoString :=
  s.takeWhile (fun c => (digitVal c).isSome)

/-- The token is a decimal numeral: an optional sign, then one or more decimal
digits. -/
def isNumeralToken (tok : GoString) : Bool :=
  !(unsignedPart tok).isEmpty && (unsignedPart tok).all (fun c => (digitVal c).isSome)

/-- The value a token of a file name denotes: the integer a decimal numeral
writes, and 0 for any token that is no numeral. -/
def tokenValue (tok : GoString) : Int :=
  if isNumeralToken tok then
    if tok.head? = some '-' then -((decValue (unsignedPart tok) : Nat) : Int)
    else ((decValue (unsignedPart tok) : Nat) : Int)
  else 0

/-- The token is no numeral, has no minus sign, and the digits it starts with
(after a `+`, if any) already denote `2^64` or more. -/
def overflowsEarly (tok : GoString) : Bool :=
  !isNumeralToken tok && decide (tok.head? ≠ some '-') &&
    decide (twoPow64 ≤ decValue (leadingDigits (unsignedPart tok)))

/-! ## Lemmas on decimal numerals -/

theorem decValueFrom_cons (acc : Nat) (c : Char) (s : GoString) :
    decValueFrom acc (c :: s) = decValueFrom (acc * 10 + (digitVal c).getD 0) s := rfl

theorem decValueFrom_append (acc : Nat) (s t : GoString) :
    decValueFrom acc (s ++ t) = decValueFrom (decValueFrom acc s) t := by
  simp [decValueFrom, List.foldl_append]

theorem le_decValueFrom (s : GoString) : ∀ acc, acc ≤ decValueFrom acc s := by
  induction s with
  | nil => intro acc; exact le_refl _
  | cons c s ih =>
    intro acc
    rw [decValueFrom_cons]
    have := ih (acc * 10 + (digitVal c).getD 0)
    omega

theorem digitVal_lt {c : Char} {d : Nat} (h : digitVal c = some d) : d < 10 := by
  unfold digitVal at h
  split at h
  · simp at h; omega
  · simp at h

theorem digitVal_not_sign {c : Char} (h : (digitVal c).isSome = true) :
    ¬ (c = '+' ∨ c = '-') := by
  rintro (rfl | rfl) <;> simp [digitVal] at h

theorem allDigits_cons {c : Char} {s : GoString} (h : allDigits (c :: s)) :
    (digitVal c).isSome = true ∧ allDigits s :=
  ⟨h c (List.mem_cons_self _ _), fun x hx => h x (List.mem_cons_of_mem _ hx)⟩

theorem parseUintLoop_digits (s : GoString) :
    ∀ n, allDigits s → decValueFrom n s < twoPow64 →
      parseUintLoop n s = (decValueFrom n s, NumErr.ok) := by
  induction s with
  | nil => intro n _ _; rfl
  | cons c s ih =>
    intro n hd hlt
    obtain ⟨hc, hs⟩ := allDigits_cons hd
    obtain ⟨d, hdv⟩ := Option.isSome_iff_exists.mp hc
    have hd10 := digitVal_lt hdv
    rw [decValueFrom_cons, hdv] at hlt
    simp only [Option.getD_some] at hlt
    have hle := le_decValueFrom s (n * 10 + d)
    rw [decValueFrom_cons, hdv]
    simp only [Option.getD_some]
    unfold twoPow64 at hlt
    have h1 : ¬ (n ≥ twoPow64 / 10 + 1) := by unfold twoPow64; omega
    have h2 : (n * 10 + d) % twoPow64 = n * 10 + d := by
      unfold twoPow64; omega
    have h3 : ¬ (n * 10 + d < n * 10 ∨ n * 10 + d > twoPow64 - 1) := by
      unfold twoPow64; omega
    simp only [parseUintLoop, hdv, h1, h2, h3, if_false]
    exact ih _ hs (by unfold twoPow64; exact hlt)

theorem atoiFastLoop_digits (s : GoString) :
    ∀ n : Nat, allDigits s → atoiFastLoop (n : Int) s = some ((decValueFrom n s : Nat) : Int) := by
  induction s with
  | nil => intro n _; rfl
  | cons c s ih =>
    intro n hd
    obtain ⟨hc, hs⟩ := allDigits_cons hd
    obtain ⟨d, hdv⟩ := Option.isSome_iff_exists.mp hc
    rw [decValueFrom_cons, hdv]
    simp only [Option.getD_some, atoiFastLoop, hdv]
    have := ih (n * 10 + d) hs
    push_cast at this
    exact this

theorem strconvParseInt_digits (s : GoString) (hne : s ≠ []) (hd : allDigits s)
    (hlt : decValue s < twoPow63) :
    strconvParseInt s = (((decValue s : Nat) : Int), NumErr.ok) := by
  cases s with
  | nil => exact absurd rfl hne
  | cons c cs =>
    have hsign := digitVal_not_sign (allDigits_cons hd).1
    have hneg : ¬ c = '-' := fun h => hsign (Or.inr h)
    have hU : ParseUint (c :: cs) = (decValue (c :: cs), NumErr.ok) := by
      unfold ParseUint
      exact parseUintLoop_digits _ 0 hd (by unfold decValue twoPow63 at hlt; unfold twoPow64; omega)
    have hplus : ¬ c = '+' := fun h => hsign (Or.inl h)
    have : ¬ twoPow63 ≤ decValue (c :: cs) := by omega
    unfold strconvParseInt
    simp [hplus, hneg, hU, this]

theorem Atoi_digits (s : GoString) (hne : s ≠ []) (hd : allDigits s)
    (hlt : decValue s < twoPow63) :
    Atoi s = (((decValue s : Nat) : Int), NumErr.ok) := by
  unfold Atoi
  split
  · cases s with
    | nil => exact absurd rfl hne
    | cons c cs =>
      have hsign := digitVal_not_sign (allDigits_cons hd).1
      have hsign' : ¬ (c = '-' ∨ c = '+') := fun h => hsign h.symm
      have hneg : ¬ c = '-' := fun h => hsign (Or.inr h)
      have hplus : ¬ c = '+' := fun h => hsign (Or.inl h)
      have := atoiFastLoop_digits (c :: cs) 0 hd
      simp only [Nat.cast_zero] at this
      simp [hplus, hneg, this, decValue]
  · exact strconvParseInt_digits s hne hd hlt

theorem ParseInt_digits (s : GoString) (hne : s ≠ []) (hd : allDigits s)
    (hlt : decValue s < twoPow63) : ParseInt s = (decValue s : Nat) := by
  unfold ParseInt; rw [Atoi_digits s hne hd hlt]

theorem ParseInt64_digits (s : GoString) (hne : s ≠ []) (hd : allDigits s)
    (hlt : decValue s < twoPow63) : ParseInt64 s = (decValue s : Nat) := by
  unfold ParseInt64; rw [strconvParseInt_digits s hne hd hlt]

/-! ## Lemmas on the string helpers -/

theorem Split_no_sep (sep : Char) (s : GoString) (h : sep ∉ s) : Split s sep = [s] := by
  induction s with
  | nil => rfl
  | cons c s ih =>
    have hc : ¬ c = sep := fun e => h (e ▸ List.mem_cons_self _ _)
    have hs : sep ∉ s := fun e => h (List.mem_cons_of_mem _ e)
    simp [Split, hc, ih hs]

theorem Split_append_sep (sep : Char) (s t : GoString) (h : sep ∉ s) :
    Split (s ++ sep :: t) sep = s :: Split t sep := by
  induction s with
  | nil => simp [Split]
  | cons c s ih =>
    have hc : ¬ c = sep := fun e => h (e ▸ List.mem_cons_self _ _)
    have hs : sep ∉ s := fun e => h (List.mem_cons_of_mem _ e)
    simp [Split, hc, ih hs]

theorem TrimSpace_of_ends (a b : Char) (m : GoString) (ha : isSpace a = false)
    (hb : isSpace b = false) : TrimSpace (a :: (m ++ [b])) = a :: (m ++ [b]) := by
  simp [TrimSpace, List.dropWhile, ha, hb]

theorem CutSuffix_append (s suffix : GoString) : (CutSuffix (s ++ suffix) suffix).1 = s := by
  simp [CutSuffix, HasSuffix]

theorem digitVal_digitChar (k : Nat) (hk : k < 10) : digitVal (Nat.digitChar k) = some k := by
  interval_cases k <;> rfl

theorem toDigitsCore_spec (fuel : Nat) :
    ∀ (n : Nat) (ds : List Char), n < fuel →
      ∃ L : GoString, Nat.toDigitsCore 10 fuel n ds = L ++ ds ∧ L ≠ [] ∧ allDigits L ∧
        ∀ acc, decValueFrom acc L = acc * 10 ^ L.length + n := by
  induction fuel with
  | zero => intro n ds h; omega
  | succ fuel ih =>
    intro n ds hn
    have hd := digitVal_digitChar (n % 10) (Nat.mod_lt _ (by decide))
    by_cases h0 : n / 10 = 0
    · refine ⟨[Nat.digitChar (n % 10)], ?_, by simp, ?_, ?_⟩
      · simp [Nat.toDigitsCore, h0]
      · intro c hc
        simp only [List.mem_singleton] at hc
        subst hc; simp [hd]
      · intro acc
        simp only [decValueFrom, List.foldl, hd, Option.getD_some, List.length_singleton, pow_one]
        omega
    · obtain ⟨L, hL, _, hLd, hLv⟩ := ih (n / 10) (Nat.digitChar (n % 10) :: ds) (by omega)
      refine ⟨L ++ [Nat.digitChar (n % 10)], ?_, by simp, ?_, ?_⟩
      · simp [Nat.toDigitsCore, h0, hL]
      · intro c hc
        rcases List.mem_append.mp hc with hc | hc
        · exact hLd c hc
        · simp only [List.mem_singleton] at hc
          subst hc; simp [hd]
      · intro acc
        rw [decValueFrom_append, hLv]
        simp only [decValueFrom, List.foldl, hd, Option.getD_some, List.length_append,
          List.length_singleton, pow_succ]
        have := Nat.div_add_mod n 10
        nlinarith

theorem toDigits_spec (n : Nat) :
    Nat.toDigits 10 n ≠ [] ∧ allDigits (Nat.toDigits 10 n) ∧ decValue (Nat.toDigits 10 n) = n := by
  obtain ⟨L, hL, hne, hd, hv⟩ := toDigitsCore_spec (n + 1) n [] (Nat.lt_succ_self n)
  have hL' : Nat.toDigits 10 n = L := by simpa [Nat.toDigits] using hL
  rw [hL']
  exact ⟨hne, hd, by simpa [decValue] using hv 0⟩

theorem not_mem_of_allDigits {c : Char} {s : GoString} (hs : allDigits s)
    (hc : digitVal c = none) : c ∉ s := by
  intro h
  have := hs c h
  simp [hc] at this

/-! ## Round trip of the naming codec -/

theorem formatInt_pos (n : Int) (h : 0 < n) (h63 : n < (twoPow63 : Int)) :
    formatInt n ≠ [] ∧ allDigits (formatInt n) ∧ ((decValue (formatInt n) : Nat) : Int) = n ∧
      decValue (formatInt n) < twoPow63 := by
  have hneg : ¬ n < 0 := by omega
  obtain ⟨h1, h2, h3⟩ := toDigits_spec n.natAbs
  unfold formatInt
  simp only [hneg, if_false]
  refine ⟨h1, h2, ?_, ?_⟩
  · rw [h3]; omega
  · rw [h3]; omega

/-- C3: round trip of the artifact naming codec. For every process id and
capture time that are positive and below `2^63`, `parseReportFileName` applied
to the name `nmt_<pid>_<ts>.txt` the generator builds returns exactly
`(pid, ts)` and no error. -/
theorem parseReportFileName_roundtrip (pid ts : Int) (hpid : 0 < pid)
    (hpid63 : pid < (twoPow63 : Int)) (hts : 0 < ts) (hts63 : ts < (twoPow63 : Int)) :
    parseReportFileName (reportName pid ts) = (pid, ts, none) := by
  obtain ⟨hPne, hPd, hPv, hPlt⟩ := formatInt_pos pid hpid hpid63
  obtain ⟨hTne, hTd, hTv, hTlt⟩ := formatInt_pos ts hts hts63
  have hname : reportName pid ts =
      'n' :: (("mt_".toList ++ formatInt pid ++ "_".toList ++ formatInt ts ++ ".tx".toList)
        ++ ['t']) := by
    simp [reportName]
  have htrim : TrimSpace (reportName pid ts) = reportName pid ts := by
    rw [hname]; exact TrimSpace_of_ends _ _ _ (by decide) (by decide)
  have hcut : (CutSuffix (reportName pid ts) ".txt".toList).1 =
      "nmt".toList ++ '_' :: (formatInt pid ++ '_' :: formatInt ts) := by
    have : reportName pid ts =
        ("nmt".toList ++ '_' :: (formatInt pid ++ '_' :: formatInt ts)) ++ ".txt".toList := by
      simp [reportName]
    rw [this]; exact CutSuffix_append _ _
  have hsplit : Split ("nmt".toList ++ '_' :: (formatInt pid ++ '_' :: formatInt ts)) '_' =
      ["nmt".toList, formatInt pid, formatInt ts] := by
    rw [Split_append_sep _ _ _ (by decide),
      Split_append_sep _ _ _ (not_mem_of_allDigits hPd (by decide)),
      Split_no_sep _ _ (not_mem_of_allDigits hTd (by decide))]
  have hp := ParseInt_digits _ hPne hPd hPlt
  have ht := ParseInt64_digits _ hTne hTd hTlt
  rw [hPv] at hp
  rw [hTv] at ht
  unfold parseReportFileName
  simp only [htrim, hcut, hsplit, hp, ht]
  have h1 : ¬ pid ≤ 0 := by omega
  have h2 : ¬ ts ≤ 0 := by omega
  simp [h1, h2]

/-- Witness of C3, the name of the test fixture: `nmt_53732_1764484822.txt`
decodes to `(53732, 1764484822)`. -/
theorem parseReportFileName_roundtrip_witness :
    reportName 53732 1764484822 = "nmt_53732_1764484822.txt".toList ∧
      parseReportFileName (reportName 53732 1764484822) = (53732, 1764484822, none) :=
  ⟨by decide,
    parseReportFileName_roundtrip 53732 1764484822 (by decide) (by decide) (by decide)
      (by decide)⟩

/-! ## Lemmas on the text parser -/

theorem parseNMTEntries_foldl (lines : List GoString) :
    ∀ acc : List NMTEntry,
      lines.foldl (fun nmtEntries line => nmtEntries ++ parseLine line) acc =
        acc ++ (lines.map parseLine).flatten := by
  induction lines with
  | nil => intro acc; simp
  | cons l ls ih => intro acc; simp [List.foldl, ih, List.append_assoc]

theorem parseNMTEntries_eq_join (lines : List GoString) :
    parseNMTEntries lines = (lines.map parseLine).flatten := by
  simp [parseNMTEntries, parseNMTEntries_foldl]

theorem parseNMTEntries_singleton (l : GoString) : parseNMTEntries [l] = parseLine l := by
  simp [parseNMTEntries]

theorem parseNMTEntries_append (xs ys : List GoString) :
    parseNMTEntries (xs ++ ys) = parseNMTEntries xs ++ parseNMTEntries ys := by
  simp [parseNMTEntries_eq_join]

theorem parseLine_length_le (l : GoString) : (parseLine l).length ≤ 1 := by
  cases h1 : FindAllStringSubmatch NMT_TOTAL_HEADER_REGEX (TrimSpace l) with
  | some caps => simp [parseLine, h1]
  | none =>
    cases h2 : FindAllStringSubmatch NMT_CATEGORY_HEADER_REGEX (TrimSpace l) with
    | some caps => simp [parseLine, h1, h2]
    | none => simp [parseLine, h1, h2]

theorem parseLine_eq_nil (l : GoString)
    (h1 : FindAllStringSubmatch NMT_TOTAL_HEADER_REGEX (TrimSpace l) = none)
    (h2 : FindAllStringSubmatch NMT_CATEGORY_HEADER_REGEX (TrimSpace l) = none) :
    parseLine l = [] := by
  simp [parseLine, h1, h2]

/-! ## Lemmas on the pattern matcher -/

theorem stripLit_append (s t : GoString) : stripLit s (s ++ t) = some t := by
  induction s with
  | nil => cases t <;> rfl
  | cons c cs ih => simp [stripLit, ih]

theorem stripLit_eq_some (s : GoString) :
    ∀ inp t : GoString, stripLit s inp = some t → inp = s ++ t := by
  induction s with
  | nil => intro inp t h; cases inp <;> simp_all [stripLit]
  | cons c cs ih =>
    intro inp t h
    cases inp with
    | nil => simp [stripLit] at h
    | cons x xs =>
      by_cases hcx : c = x
      · subst hcx
        simp only [stripLit, if_true] at h
        rw [ih xs t h]; rfl
      · simp [stripLit, hcx] at h

theorem matchItems_lit (s : GoString) (rest : Regex) (inp : GoString) :
    matchItems (Item.lit s :: rest) (s ++ inp) = matchItems rest inp := by
  simp [matchItems, stripLit_append]

theorem matchItems_lit_none (s : GoString) (rest : Regex) (inp : GoString)
    (h : stripLit s inp = none) : matchItems (Item.lit s :: rest) inp = none := by
  simp [matchItems, h]

theorem matchItems_rep (capture : Bool) (q : Quant) (cls : CharClass) (rest : Regex)
    (inp : GoString) :
    matchItems (Item.rep capture q cls :: rest) inp =
      repeatClass q cls.test
        (fun m rem => (matchItems rest rem).map (fun caps => if capture then m :: caps else caps))
        inp := by
  rw [matchItems]

theorem greedyStar_run {α : Type} (p : Char → Bool) (k : GoString → GoString → Option α)
    (inp : GoString) (r : α) (hhead : headFails p inp) (run : GoString) :
    ∀ acc, (∀ c ∈ run, p c = true) → k (acc ++ run) inp = some r →
      greedyStar p k acc (run ++ inp) = some r := by
  induction run with
  | nil =>
    intro acc _ hk
    simp only [List.append_nil, List.nil_append] at hk ⊢
    cases inp with
    | nil => simpa [greedyStar] using hk
    | cons c cs => simp [greedyStar, hhead c cs rfl, hk]
  | cons c run ih =>
    intro acc hall hk
    have hc : p c = true := hall c (List.mem_cons_self _ _)
    have := ih (acc ++ [c]) (fun x hx => hall x (List.mem_cons_of_mem _ hx))
      (by simpa using hk)
    simp [greedyStar, hc, this]

theorem greedyStar_const {α : Type} (p : Char → Bool) (k : GoString → GoString → Option α)
    (v : α) (hk : ∀ m rem r, k m rem = some r → r = v) (inp : GoString) :
    ∀ acc r, greedyStar p k acc inp = some r → r = v := by
  induction inp with
  | nil => intro acc r h; exact hk _ _ _ (by simpa [greedyStar] using h)
  | cons c cs ih =>
    intro acc r h
    unfold greedyStar at h
    split at h
    · split at h
      · next r1 h1 => cases h; exact ih _ _ h1
      · exact hk _ _ _ h
    · exact hk _ _ _ h

theorem greedyStar_backtrack {α : Type} (p : Char → Bool)
    (k : GoString → GoString → Option α) (v : α)
    (hk : ∀ m rem r, k m rem = some r → r = v) (inp : GoString) (run : GoString) :
    ∀ acc, (∀ c ∈ run, p c = true) → k (acc ++ run) inp = some v →
      greedyStar p k acc (run ++ inp) = some v := by
  induction run with
  | nil =>
    intro acc _ h
    simp only [List.append_nil, List.nil_append] at h ⊢
    cases inp with
    | nil => simpa [greedyStar] using h
    | cons c cs =>
      unfold greedyStar
      split
      · cases h1 : greedyStar p k (acc ++ [c]) cs with
        | none => simpa using h
        | some r1 => simp [greedyStar_const p k v hk cs _ _ h1]
      · exact h
  | cons c run ih =>
    intro acc hall h
    have hc : p c = true := hall c (List.mem_cons_self _ _)
    have := ih (acc ++ [c]) (fun x hx => hall x (List.mem_cons_of_mem _ hx))
      (by simpa using h)
    simp [greedyStar, hc, this]

theorem greedyStar_none {α : Type} (p : Char → Bool) (k : GoString → GoString → Option α)
    (inp : GoString) :
    ∀ acc, (∀ run rem, inp = run ++ rem → (∀ c ∈ run, p c = true) → k (acc ++ run) rem = none) →
      greedyStar p k acc inp = none := by
  induction inp with
  | nil => intro acc h; simpa [greedyStar] using h [] [] rfl (by simp)
  | cons c cs ih =>
    intro acc h
    have h0 : k acc (c :: cs) = none := by simpa using h [] (c :: cs) rfl (by simp)
    unfold greedyStar
    split
    · next hc =>
      have : greedyStar p k (acc ++ [c]) cs = none := by
        apply ih
        intro run rem e hall
        have := h (c :: run) rem (by rw [e]; rfl) (by
          intro x hx
          rcases List.mem_cons.mp hx with rfl | hx
          · exact hc
          · exact hall x hx)
        simpa using this
      simp [this, h0]
    · exact h0

theorem lazyStar_run {α : Type} (p : Char → Bool) (k : GoString → GoString → Option α)
    (inp : GoString) (r : α) (run : GoString) :
    ∀ acc, (∀ c ∈ run, p c = true) →
      (∀ n1 n2, run = n1 ++ n2 → n2 ≠ [] → k (acc ++ n1) (n2 ++ inp) = none) →
      k (acc ++ run) inp = some r →
      lazyStar p k acc (run ++ inp) = some r := by
  induction run with
  | nil =>
    intro acc _ _ hk
    simp only [List.append_nil, List.nil_append] at hk ⊢
    cases inp with
    | nil => simpa [lazyStar] using hk
    | cons c cs => simp [lazyStar, hk]
  | cons c run ih =>
    intro acc hall hnone hk
    have hc : p c = true := hall c (List.mem_cons_self _ _)
    have h0 : k acc (c :: run ++ inp) = none := by
      simpa using hnone [] (c :: run) rfl (by simp)
    have := ih (acc ++ [c]) (fun x hx => hall x (List.mem_cons_of_mem _ hx))
      (by
        intro n1 n2 e hne
        have := hnone (c :: n1) n2 (by rw [e]; rfl) hne
        simpa using this)
      (by simpa using hk)
    simp only [List.cons_append] at h0 ⊢
    simp [lazyStar, h0, hc, this]

theorem matchItems_plus (capture : Bool) (cls : CharClass) (rest : Regex)
    (run inp : GoString) (caps : List GoString) (hne : run ≠ [])
    (hall : ∀ c ∈ run, cls.test c = true) (hhead : headFails cls.test inp)
    (hrest : matchItems rest inp = some caps) :
    matchItems (Item.rep capture Quant.plus cls :: rest) (run ++ inp) =
      some (if capture then run :: caps else caps) := by
  cases run with
  | nil => exact absurd rfl hne
  | cons c run =>
    have hc : cls.test c = true := hall c (List.mem_cons_self _ _)
    simp only [matchItems, repeatClass, List.cons_append, hc, if_true]
    apply greedyStar_run _ _ _ _ hhead run [c] (fun x hx => hall x (List.mem_cons_of_mem _ hx))
    simp [hrest]

theorem headFails_cons (p : Char → Bool) (x : Char) (xs : GoString) (h : p x = false) :
    headFails p (x :: xs) := by
  intro c cs e
  cases e
  exact h

theorem headFails_nil (p : Char → Bool) : headFails p [] := by
  intro c cs e
  cases e

/-- The part shared by the two patterns, from the first number on:
`(\d+)KB,\s+committed=(\d+)KB` followed by the items `rest`. -/
theorem matchItems_fields (rest : Regex) (r ws c inp : GoString) (caps : List GoString)
    (hr : r ≠ []) (hrd : allDigits r) (hws : ws ≠ [])
    (hwss : ∀ x ∈ ws, CharClass.space.test x = true) (hc : c ≠ []) (hcd : allDigits c)
    (hrest : matchItems rest inp = some caps) :
    matchItems
      (Item.rep true Quant.plus CharClass.digit :: Item.lit "KB,".toList ::
        Item.rep false Quant.plus CharClass.space :: Item.lit "committed=".toList ::
        Item.rep true Quant.plus CharClass.digit :: Item.lit "KB".toList :: rest)
      (r ++ ("KB,".toList ++ (ws ++ ("committed=".toList ++ (c ++ ("KB".toList ++ inp)))))) =
      some (r :: c :: caps) := by
  have e1 := matchItems_lit "KB".toList rest inp
  rw [hrest] at e1
  have e2 := matchItems_plus true CharClass.digit _ c ("KB".toList ++ inp) caps hc hcd
    (headFails_cons _ 'K' _ (by decide)) e1
  have e3 := matchItems_lit "committed=".toList
    (Item.rep true Quant.plus CharClass.digit :: Item.lit "KB".toList :: rest)
    (c ++ ("KB".toList ++ inp))
  rw [e2] at e3
  have e4 := matchItems_plus false CharClass.space _ ws
    ("committed=".toList ++ (c ++ ("KB".toList ++ inp))) _ hws hwss
    (headFails_cons _ 'c' _ (by decide)) e3
  have e5 := matchItems_lit "KB,".toList
    (Item.rep false Quant.plus CharClass.space :: Item.lit "committed=".toList ::
      Item.rep true Quant.plus CharClass.digit :: Item.lit "KB".toList :: rest)
    (ws ++ ("committed=".toList ++ (c ++ ("KB".toList ++ inp))))
  rw [e4] at e5
  have e6 := matchItems_plus true CharClass.digit _ r
    ("KB,".toList ++ (ws ++ ("committed=".toList ++ (c ++ ("KB".toList ++ inp))))) _ hr hrd
    (headFails_cons _ 'K' _ (by decide)) e5
  simpa using e6

theorem matchItems_totalLine (ws1 r ws2 c : GoString)
    (hws1 : ws1 ≠ []) (hws1s : ∀ x ∈ ws1, CharClass.space.test x = true)
    (hr : r ≠ []) (hrd : allDigits r)
    (hws2 : ws2 ≠ []) (hws2s : ∀ x ∈ ws2, CharClass.space.test x = true)
    (hc : c ≠ []) (hcd : allDigits c) :
    matchItems NMT_TOTAL_HEADER_REGEX (totalLine ws1 r ws2 c) = some [r, c] := by
  have e1 := matchItems_fields [] r ws2 c [] [] hr hrd hws2 hws2s hc hcd rfl
  have e2 := matchItems_lit "reserved=".toList
    (Item.rep true Quant.plus CharClass.digit :: Item.lit "KB,".toList ::
        Item.rep false Quant.plus CharClass.space :: Item.lit "committed=".toList ::
        Item.rep true Quant.plus CharClass.digit :: Item.lit "KB".toList :: [])
    (r ++ ("KB,".toList ++ (ws2 ++ ("committed=".toList ++ (c ++ ("KB".toList ++ []))))))
  rw [e1] at e2
  have e3 := matchItems_plus false CharClass.space _ ws1
    ("reserved=".toList ++
      (r ++ ("KB,".toList ++ (ws2 ++ ("committed=".toList ++ (c ++ ("KB".toList ++ [])))))))
    _ hws1 hws1s (headFails_cons _ 'r' _ (by decide)) e2
  have e4 := matchItems_lit "Total:".toList
    (Item.rep false Quant.plus CharClass.space :: Item.lit "reserved=".toList ::
      Item.rep true Quant.plus CharClass.digit :: Item.lit "KB,".toList ::
        Item.rep false Quant.plus CharClass.space :: Item.lit "committed=".toList ::
        Item.rep true Quant.plus CharClass.digit :: Item.lit "KB".toList :: [])
    (ws1 ++ ("reserved=".toList ++
      (r ++ ("KB,".toList ++ (ws2 ++ ("committed=".toList ++ (c ++ ("KB".toList ++ []))))))))
  replace e4 := e4.trans e3
  have hl : totalLine ws1 r ws2 c = "Total:".toList ++ (ws1 ++ ("reserved=".toList ++
      (r ++ ("KB,".toList ++ (ws2 ++ ("committed=".toList ++ (c ++ ("KB".toList ++ [])))))))) := by
    simp [totalLine]
  rw [hl]
  exact e4

theorem TrimSpace_totalLine (ws1 r ws2 c : GoString) :
    TrimSpace (totalLine ws1 r ws2 c) = totalLine ws1 r ws2 c := by
  have hl : totalLine ws1 r ws2 c = 'T' :: (("otal:".toList ++ ws1 ++ "reserved=".toList ++ r ++
      "KB,".toList ++ ws2 ++ "committed=".toList ++ c ++ ['K']) ++ ['B']) := by
    simp [totalLine]
  rw [hl]
  exact TrimSpace_of_ends _ _ _ (by decide) (by decide)

theorem parseLine_totalLine (ws1 r ws2 c : GoString)
    (hws1 : ws1 ≠ []) (hws1s : ∀ x ∈ ws1, CharClass.space.test x = true)
    (hr : r ≠ []) (hrd : allDigits r)
    (hws2 : ws2 ≠ []) (hws2s : ∀ x ∈ ws2, CharClass.space.test x = true)
    (hc : c ≠ []) (hcd : allDigits c) :
    parseLine (totalLine ws1 r ws2 c) =
      [{ Name := "Total".toList, Reserved := ParseInt r, Committed := ParseInt c }] := by
  have h := matchItems_totalLine ws1 r ws2 c hws1 hws1s hr hrd hws2 hws2s hc hcd
  simp [parseLine, TrimSpace_totalLine, FindAllStringSubmatch, h]

theorem mem_parseNMTEntries (pre post : List GoString) (line : GoString) (e : NMTEntry)
    (h : e ∈ parseLine line) : e ∈ parseNMTEntries (pre ++ line :: post) := by
  have : line :: post = [line] ++ post := rfl
  rw [this, parseNMTEntries_append, parseNMTEntries_append, parseNMTEntries_singleton]
  exact List.mem_append_right _ (List.mem_append_left _ h)

/-- No occurrence of the literal `lit` starts inside a name or inside the run
of white space after it, when the name does not end in white space, does not
contain the literal, and the literal has no white space. -/
theorem stripLit_inside_none (lit name n1 n2 sp rem ws rest : GoString)
    (hname : name = n1 ++ n2) (hn2 : n2 ≠ [])
    (hlast : ∀ xs x, name = xs ++ [x] → CharClass.space.test x = false)
    (hno : ∀ a b, name ≠ a ++ lit ++ b)
    (hlit : ∀ x ∈ lit, CharClass.space.test x = false)
    (hws : ws ≠ []) (hwss : ∀ x ∈ ws, CharClass.space.test x = true)
    (hsp : ∀ x ∈ sp, CharClass.space.test x = true)
    (e : n2 ++ (ws ++ rest) = sp ++ rem) : stripLit lit rem = none := by
  cases hs : stripLit lit rem with
  | none => rfl
  | some t =>
    exfalso
    have hrem := stripLit_eq_some lit rem t hs
    rcases List.eq_nil_or_concat n2 with h | ⟨n2i, l, h⟩
    · exact hn2 h
    rw [List.concat_eq_append] at h
    have hl : CharClass.space.test l = false :=
      hlast (n1 ++ n2i) l (by rw [hname, h, List.append_assoc])
    obtain ⟨w, ws1, hw⟩ := List.exists_cons_of_ne_nil hws
    have hwsp : CharClass.space.test w = true := hwss w (by rw [hw]; exact List.mem_cons_self _ _)
    have e1 : n2i ++ (l :: (w :: (ws1 ++ rest))) = sp ++ (lit ++ t) := by
      rw [← hrem, ← e, h, hw]; simp
    -- the run of white space ends before the last character of the name
    have hsplit : ∃ m, n2i = sp ++ m ∧ lit ++ t = m ++ (l :: (w :: (ws1 ++ rest))) := by
      rcases List.append_eq_append_iff.mp e1 with ⟨a1, ha, hb⟩ | ⟨c1, hc, hd⟩
      · cases a1 with
        | nil => exact ⟨[], by simpa using ha.symm, by simpa using hb.symm⟩
        | cons y a2 =>
          exfalso
          have hy : y = l := by
            have := congrArg List.head? hb
            simpa using this.symm
          have : CharClass.space.test y = true := hsp y (by rw [ha]; simp)
          rw [hy, hl] at this
          exact Bool.false_ne_true this
      · exact ⟨c1, hc, hd⟩
    obtain ⟨m, hm, e2⟩ := hsplit
    have e3 : lit ++ t = (m ++ [l]) ++ (w :: (ws1 ++ rest)) := by rw [e2]; simp
    have hnm : name = (n1 ++ sp) ++ (m ++ [l]) := by rw [hname, h, hm]; simp
    rcases List.append_eq_append_iff.mp e3 with ⟨a1, ha, _⟩ | ⟨c1, hc, hd⟩
    · apply hno (n1 ++ sp) a1
      rw [hnm, ha]; simp
    · cases c1 with
      | nil =>
        apply hno (n1 ++ sp) []
        rw [hnm]; simp at hc; rw [hc]; simp
      | cons y c2 =>
        have hy : w = y := by
          have := congrArg List.head? hd
          simpa using this
        have := hlit y (by rw [hc]; simp)
        rw [← hy, hwsp] at this
        exact Bool.false_ne_true this.symm

theorem matchItems_dotStar_close (tail : GoString)
    (htail : ∀ x ∈ tail, CharClass.dot.test x = true) :
    matchItems [Item.rep false Quant.star CharClass.dot, Item.lit ")".toList]
      (tail ++ ")".toList) = some [] := by
  simp only [matchItems, repeatClass]
  have := greedyStar_backtrack CharClass.dot.test
    (fun m rem => (matchItems [Item.lit ")".toList] rem).map
      (fun caps => if false = true then m :: caps else caps)) []
    (by
      intro m rem r h
      simp only [matchItems] at h
      cases hs : stripLit [')'] rem with
      | none => simp [hs] at h
      | some t => simp [hs] at h; exact h)
    ")".toList tail [] htail (by simp [matchItems, stripLit])
  simpa using this

theorem matchItems_categoryAfterName (ws2 r ws3 c tail : GoString)
    (hws2 : ws2 ≠ []) (hws2s : ∀ x ∈ ws2, CharClass.space.test x = true)
    (hr : r ≠ []) (hrd : allDigits r)
    (hws3 : ws3 ≠ []) (hws3s : ∀ x ∈ ws3, CharClass.space.test x = true)
    (hc : c ≠ []) (hcd : allDigits c)
    (htail : ∀ x ∈ tail, CharClass.dot.test x = true) :
    matchItems categoryAfterName
      (ws2 ++ ("(reserved=".toList ++ (r ++ ("KB,".toList ++ (ws3 ++ ("committed=".toList ++
        (c ++ ("KB".toList ++ (tail ++ ")".toList))))))))) = some [r, c] := by
  have e1 := matchItems_fields _ r ws3 c (tail ++ ")".toList) [] hr hrd hws3 hws3s hc hcd
    (matchItems_dotStar_close tail htail)
  have e2 := matchItems_lit "(reserved=".toList
    (Item.rep true Quant.plus CharClass.digit :: Item.lit "KB,".toList ::
        Item.rep false Quant.plus CharClass.space :: Item.lit "committed=".toList ::
        Item.rep true Quant.plus CharClass.digit :: Item.lit "KB".toList ::
        [Item.rep false Quant.star CharClass.dot, Item.lit ")".toList])
    (r ++ ("KB,".toList ++ (ws3 ++ ("committed=".toList ++
        (c ++ ("KB".toList ++ (tail ++ ")".toList)))))))
  replace e2 := e2.trans e1
  have e3 := matchItems_plus false CharClass.space _ ws2
    ("(reserved=".toList ++ (r ++ ("KB,".toList ++ (ws3 ++ ("committed=".toList ++
        (c ++ ("KB".toList ++ (tail ++ ")".toList))))))))
    _ hws2 hws2s (headFails_cons _ '(' _ (by decide)) e2
  exact e3

theorem matchItems_categoryAfterName_none (name n1 n2 ws2 rest : GoString)
    (hname : name = n1 ++ n2) (hn2 : n2 ≠ [])
    (hlast : ∀ xs x, name = xs ++ [x] → CharClass.space.test x = false)
    (hno : ∀ a b, name ≠ a ++ "(reserved=".toList ++ b)
    (hws2 : ws2 ≠ []) (hws2s : ∀ x ∈ ws2, CharClass.space.test x = true) :
    matchItems categoryAfterName (n2 ++ (ws2 ++ rest)) = none := by
  obtain ⟨x, n3, hx⟩ := List.exists_cons_of_ne_nil hn2
  subst hx
  unfold categoryAfterName
  rw [matchItems_rep]
  simp only [repeatClass, List.cons_append]
  split
  · next hxs =>
    apply greedyStar_none
    intro run rem e hrun
    have hnone := stripLit_inside_none "(reserved=".toList name n1 (x :: n3) (x :: run) rem ws2 rest
      hname hn2 hlast hno (by decide) hws2 hws2s
      (by
        intro y hy
        rcases List.mem_cons.mp hy with rfl | hy
        · exact hxs
        · exact hrun y hy)
      (by simp [e])
    simp only [matchItems_lit_none _ _ _ hnone, Option.map_none']
  · rfl

theorem matchItems_categoryLine (ws1 name ws2 r ws3 c tail : GoString)
    (hws1 : ws1 ≠ []) (hws1s : ∀ x ∈ ws1, CharClass.space.test x = true)
    (hname : name ≠ [])
    (hfirst : ∀ x xs, name = x :: xs → CharClass.space.test x = false)
    (hlast : ∀ xs x, name = xs ++ [x] → CharClass.space.test x = false)
    (hno : ∀ a b, name ≠ a ++ "(reserved=".toList ++ b)
    (hdot : ∀ x ∈ name, CharClass.dot.test x = true)
    (hws2 : ws2 ≠ []) (hws2s : ∀ x ∈ ws2, CharClass.space.test x = true)
    (hr : r ≠ []) (hrd : allDigits r)
    (hws3 : ws3 ≠ []) (hws3s : ∀ x ∈ ws3, CharClass.space.test x = true)
    (hc : c ≠ []) (hcd : allDigits c)
    (htail : ∀ x ∈ tail, CharClass.dot.test x = true) :
    matchItems NMT_CATEGORY_HEADER_REGEX (categoryLine ws1 name ws2 r ws3 c tail) =
      some [name, r, c] := by
  have hafter := matchItems_categoryAfterName ws2 r ws3 c tail hws2 hws2s hr hrd hws3 hws3s hc hcd
    htail
  generalize hrest : ("(reserved=".toList ++ (r ++ ("KB,".toList ++ (ws3 ++
    ("committed=".toList ++ (c ++ ("KB".toList ++ (tail ++ ")".toList)))))))) = rest at hafter
  -- the lazy group takes exactly the name
  have hlazy : matchItems (Item.rep true Quant.lazyStar CharClass.dot :: categoryAfterName)
      (name ++ (ws2 ++ rest)) = some [name, r, c] := by
    rw [matchItems_rep]
    simp only [repeatClass]
    apply lazyStar_run _ _ _ _ name [] hdot
    · intro n1 n2 e hn2
      have := matchItems_categoryAfterName_none name n1 n2 ws2 rest e hn2 hlast hno hws2 hws2s
      simp only [this, Option.map_none']
    · simp only [hafter, Option.map_some', List.nil_append, if_true]
  have hhead : headFails CharClass.space.test (name ++ (ws2 ++ rest)) := by
    obtain ⟨x, xs, hx⟩ := List.exists_cons_of_ne_nil hname
    have := hfirst x xs hx
    subst hx
    exact headFails_cons _ _ _ this
  have e1 := matchItems_plus false CharClass.space _ ws1 (name ++ (ws2 ++ rest)) _ hws1 hws1s
    hhead hlazy
  have e2 := matchItems_lit "-".toList
    (Item.rep false Quant.plus CharClass.space ::
      Item.rep true Quant.lazyStar CharClass.dot :: categoryAfterName)
    (ws1 ++ (name ++ (ws2 ++ rest)))
  replace e2 := e2.trans e1
  have hl : categoryLine ws1 name ws2 r ws3 c tail =
      "-".toList ++ (ws1 ++ (name ++ (ws2 ++ rest))) := by
    rw [← hrest]; simp [categoryLine]
  rw [hl]
  exact e2

/-! ## Header extraction -/

theorem dot_test_of_ne (x : Char) (h : x ≠ '\n') : CharClass.dot.test x = true := by
  by_contra hx
  apply h
  have h10 : x.toNat = 10 := by simpa [CharClass.test] using hx
  have := Char.ofNat_toNat x
  rw [h10] at this
  rw [← this]

theorem TrimSpace_categoryLine (ws1 name ws2 r ws3 c tail : GoString) :
    TrimSpace (categoryLine ws1 name ws2 r ws3 c tail) =
      categoryLine ws1 name ws2 r ws3 c tail := by
  have hl : categoryLine ws1 name ws2 r ws3 c tail =
      '-' :: ((ws1 ++ name ++ ws2 ++ "(reserved=".toList ++ r ++ "KB,".toList ++ ws3 ++
        "committed=".toList ++ c ++ "KB".toList ++ tail) ++ [')']) := by
    simp [categoryLine]
  rw [hl]
  exact TrimSpace_of_ends _ _ _ (by decide) (by decide)

theorem matchItems_total_categoryLine (ws1 name ws2 r ws3 c tail : GoString) :
    matchItems NMT_TOTAL_HEADER_REGEX (categoryLine ws1 name ws2 r ws3 c tail) = none := by
  have hl : categoryLine ws1 name ws2 r ws3 c tail =
      '-' :: (ws1 ++ name ++ ws2 ++ "(reserved=".toList ++ r ++ "KB,".toList ++ ws3 ++
        "committed=".toList ++ c ++ "KB".toList ++ tail ++ [')']) := by
    simp [categoryLine]
  rw [hl]
  exact matchItems_lit_none _ _ _ (by simp [stripLit])

/-- C5: category header extraction. A line `-`, white space, `name`, white
space, `(reserved=<r>KB,`, white space, `committed=<c>KB`, any tail, `)`,
where `name` is non-empty, neither starts nor ends with white space and does
not contain `(reserved=`, where `r` and `c` are decimal numerals below `2^63`,
and where the line is a line (no line feed in the name or in the tail), makes
the output of `parseNMTEntries` include the region with exactly that name,
`Reserved` the value of `r` and `Committed` the value of `c`. -/
theorem parseNMTEntries_category_header (pre post : List GoString)
    (ws1 name ws2 r ws3 c tail : GoString)
    (hws1 : isWhite ws1) (hws2 : isWhite ws2) (hws3 : isWhite ws3)
    (hname : name ≠ [])
    (hfirst : ∀ x ∈ name.head?, CharClass.space.test x = false)
    (hlast : ∀ x ∈ name.getLast?, CharClass.space.test x = false)
    (hno : ¬ ("(reserved=".toList <:+: name))
    (hr : isNumeral r) (hr63 : decValue r < 2 ^ 63)
    (hc : isNumeral c) (hc63 : decValue c < 2 ^ 63)
    (hnl : '\n' ∉ name) (hnlt : '\n' ∉ tail) :
    ({ Name := name, Reserved := (decValue r : Nat), Committed := (decValue c : Nat) } : NMTEntry) ∈
      parseNMTEntries (pre ++ categoryLine ws1 name ws2 r ws3 c tail :: post) := by
  apply mem_parseNMTEntries
  have hm := matchItems_categoryLine ws1 name ws2 r ws3 c tail hws1.1 hws1.2 hname
    (by intro x xs e; exact hfirst x (by simp [e]))
    (by intro xs x e; exact hlast x (by simp [e]))
    (by
      intro a b e
      exact hno ⟨a, b, e.symm⟩)
    (fun x hx => dot_test_of_ne x (fun e => hnl (e ▸ hx)))
    hws2.1 hws2.2 hr.1 hr.2 hws3.1 hws3.2 hc.1 hc.2
    (fun x hx => dot_test_of_ne x (fun e => hnlt (e ▸ hx)))
  have hR := ParseInt_digits r hr.1 hr.2 (by simpa [twoPow63] using hr63)
  have hC := ParseInt_digits c hc.1 hc.2 (by simpa [twoPow63] using hc63)
  simp [parseLine, TrimSpace_categoryLine, FindAllStringSubmatch, matchItems_total_categoryLine,
    hm, hR, hC]

/-- Witness of C5, the line of the fixture: `Java Heap` with 4194304 KB
reserved and 157696 KB committed. -/
theorem parseNMTEntries_category_header_witness :
    categoryLine "                 ".toList "Java Heap".toList " ".toList "4194304".toList
        " ".toList "157696".toList ", peak=157696KB".toList =
      "-                 Java Heap (reserved=4194304KB, committed=157696KB, peak=157696KB)".toList ∧
    ({ Name := "Java Heap".toList, Reserved := 4194304, Committed := 157696 } : NMTEntry) ∈
      parseNMTEntries ([] ++ categoryLine "                 ".toList "Java Heap".toList
        " ".toList "4194304".toList " ".toList "157696".toList ", peak=157696KB".toList :: []) :=
  ⟨by decide,
    parseNMTEntries_category_header [] [] "                 ".toList "Java Heap".toList
      " ".toList "4194304".toList " ".toList "157696".toList ", peak=157696KB".toList
      (by decide) (by decide) (by decide) (by decide) (by decide) (by decide) (by decide)
      (by decide) (by decide) (by decide) (by decide) (by decide) (by decide)⟩

/-- Counterexample to C6 as stated: the numeral `9223372036854775808` fits the
`uint64` field of the data model of the specification, yet the region of the
total header has `Reserved = 9223372036854775807`, the bound of Go `int` that
`strconv.Atoi` returns with its range error, which `utils.ParseInt` drops. -/
theorem parseNMTEntries_total_uint64_counterexample :
    isWhite " ".toList ∧ isNumeral "9223372036854775808".toList ∧
    decValue "9223372036854775808".toList < 2 ^ 64 ∧
    isNumeral "1".toList ∧ decValue "1".toList < 2 ^ 64 ∧
    ({ Name := "Total".toList, Reserved := (decValue "9223372036854775808".toList : Nat),
       Committed := (decValue "1".toList : Nat) } : NMTEntry) ∉
      parseNMTEntries [totalLine " ".toList "9223372036854775808".toList " ".toList "1".toList] ∧
    parseNMTEntries [totalLine " ".toList "9223372036854775808".toList " ".toList "1".toList] =
      [{ Name := "Total".toList, Reserved := 9223372036854775807, Committed := 1 }] := by
  decide

/-- C6, amended: total header extraction. A line `Total:`, white space,
`reserved=<r>KB,`, white space, `committed=<c>KB`, where `r` and `c` are
decimal numerals below `2^63` (the range of the Go `int` fields of the
region), makes the output of `parseNMTEntries` include the region named
`Total` with `Reserved` the value of `r` and `Committed` the value of `c`. -/
theorem parseNMTEntries_total_header (pre post : List GoString) (ws1 r ws2 c : GoString)
    (hws1 : isWhite ws1) (hws2 : isWhite ws2)
    (hr : isNumeral r) (hr63 : decValue r < 2 ^ 63)
    (hc : isNumeral c) (hc63 : decValue c < 2 ^ 63) :
    ({ Name := "Total".toList, Reserved := (decValue r : Nat),
       Committed := (decValue c : Nat) } : NMTEntry) ∈
      parseNMTEntries (pre ++ totalLine ws1 r ws2 c :: post) := by
  apply mem_parseNMTEntries
  rw [parseLine_totalLine ws1 r ws2 c hws1.1 hws1.2 hr.1 hr.2 hws2.1 hws2.2 hc.1 hc.2,
    ParseInt_digits r hr.1 hr.2 (by simpa [twoPow63] using hr63),
    ParseInt_digits c hc.1 hc.2 (by simpa [twoPow63] using hc63)]
  exact List.mem_singleton_self _

/-- Witness of C6 as amended, the total header of the fixture. -/
theorem parseNMTEntries_total_header_witness :
    totalLine "                  ".toList "5813841".toList " ".toList "382817".toList =
      "Total:                  reserved=5813841KB, committed=382817KB".toList ∧
    ({ Name := "Total".toList, Reserved := 5813841, Committed := 382817 } : NMTEntry) ∈
      parseNMTEntries ([] ++ totalLine "                  ".toList "5813841".toList " ".toList
        "382817".toList :: []) :=
  ⟨by decide,
    parseNMTEntries_total_header [] [] "                  ".toList "5813841".toList " ".toList
      "382817".toList (by decide) (by decide) (by decide) (by decide) (by decide) (by decide)⟩

/-! ## Failure conditions of the naming codec -/

theorem TrimSpace_eq_self (s : GoString) (hfirst : ∀ x ∈ s.head?, isSpace x = false)
    (hlast : ∀ x ∈ s.getLast?, isSpace x = false) : TrimSpace s = s := by
  cases s with
  | nil => rfl
  | cons a t =>
    have ha : isSpace a = false := hfirst a (by simp)
    rcases List.eq_nil_or_concat t with h | ⟨m, b, h⟩
    · subst h; simp [TrimSpace, List.dropWhile, ha]
    · rw [List.concat_eq_append] at h
      subst h
      have hb : isSpace b = false :=
        hlast b (by rw [← List.cons_append, List.getLast?_append]; simp)
      exact TrimSpace_of_ends a b m ha hb

theorem parseReportFileName_of_parts (name : GoString) :
    parseReportFileName name =
      match Split (CutSuffix (TrimSpace name) ".txt".toList).1 '_' with
      | [p0, p1, p2] =>
        if p0 ≠ "nmt".toList then
          (0, 0, some (DecodeError.invalidFormat (CutSuffix (TrimSpace name) ".txt".toList).1))
        else if ParseInt p1 ≤ 0 then (0, 0, some (DecodeError.invalidPid p1))
        else if ParseInt64 p2 ≤ 0 then (0, 0, some (DecodeError.invalidTs p2))
        else (ParseInt p1, ParseInt64 p2, none)
      | _ => (0, 0, some (DecodeError.invalidFormat (CutSuffix (TrimSpace name) ".txt".toList).1)) := by
  rfl

theorem parseReportFileName_err_zero (name : GoString) (e : DecodeError)
    (h : (parseReportFileName name).2.2 = some e) :
    (parseReportFileName name).1 = 0 ∧ (parseReportFileName name).2.1 = 0 := by
  rw [parseReportFileName_of_parts] at h ⊢
  generalize Split (CutSuffix (TrimSpace name) ".txt".toList).1 '_' = parts at h ⊢
  rcases parts with _ | ⟨p0, _ | ⟨p1, _ | ⟨p2, _ | ⟨p3, ps⟩⟩⟩⟩
  · exact ⟨rfl, rfl⟩
  · exact ⟨rfl, rfl⟩
  · exact ⟨rfl, rfl⟩
  · simp only at h ⊢
    split_ifs at h ⊢ <;> exact ⟨rfl, rfl⟩
  · exact ⟨rfl, rfl⟩

theorem strconvParseInt_syntaxErr (tok : GoString)
    (h : (strconvParseInt tok).2 = NumErr.syntaxErr) : ParseInt64 tok = 0 := by
  unfold ParseInt64
  cases tok with
  | nil => rfl
  | cons c cs =>
    simp only [strconvParseInt] at h ⊢
    generalize ParseUint (if c = '+' ∨ c = '-' then cs else c :: cs) = pu at h ⊢
    obtain ⟨un, err⟩ := pu
    cases err
    · simp only at h
      split_ifs at h
    · rfl
    · simp only at h
      split_ifs at h

theorem Atoi_syntaxErr (tok : GoString) (h : (Atoi tok).2 = NumErr.syntaxErr) :
    ParseInt tok = 0 := by
  unfold ParseInt
  unfold Atoi at h ⊢
  split_ifs at h ⊢ with hb
  · cases tok with
    | nil => rfl
    | cons c cs =>
      simp only at h ⊢
      generalize (if c = '-' ∨ c = '+' then cs else c :: cs) = body at h ⊢
      generalize atoiFastLoop 0 body = res at h ⊢
      cases res with
      | none => split_ifs <;> rfl
      | some n =>
        simp only at h ⊢
        split_ifs at h ⊢ with h1
        rfl
  · exact strconvParseInt_syntaxErr tok h

theorem leadingDigits_eq_self_iff (s : GoString) : leadingDigits s = s ↔ allDigits s := by
  unfold leadingDigits allDigits
  exact List.takeWhile_eq_self_iff

theorem parseUintLoop_spec (s : GoString) :
    ∀ n, n < twoPow64 →
      parseUintLoop n s =
        if twoPow64 ≤ decValueFrom n (leadingDigits s) then (twoPow64 - 1, NumErr.rangeErr)
        else if leadingDigits s = s then (decValueFrom n s, NumErr.ok)
        else (0, NumErr.syntaxErr) := by
  induction s with
  | nil =>
    intro n hn
    have : ¬ twoPow64 ≤ n := by omega
    simp [parseUintLoop, leadingDigits, decValueFrom, this]
  | cons c cs ih =>
    intro n hn
    cases hd : digitVal c with
    | none =>
      have hL : leadingDigits (c :: cs) = [] := by simp [leadingDigits, hd]
      have : ¬ twoPow64 ≤ n := by omega
      simp [parseUintLoop, hd, hL, decValueFrom, this]
    | some d =>
      have hd10 := digitVal_lt hd
      have hL : leadingDigits (c :: cs) = c :: leadingDigits cs := by
        simp [leadingDigits, hd]
      have hv : ∀ t, decValueFrom n (c :: t) = decValueFrom (n * 10 + d) t := by
        intro t; rw [decValueFrom_cons, hd]; rfl
      have hle := le_decValueFrom (leadingDigits cs) (n * 10 + d)
      rw [hL, hv, hv]
      simp only [parseUintLoop, hd]
      by_cases h1 : n ≥ twoPow64 / 10 + 1
      · have : twoPow64 ≤ decValueFrom (n * 10 + d) (leadingDigits cs) := by
          unfold twoPow64 at h1 ⊢; omega
        rw [if_pos h1, if_pos this]
      · rw [if_neg h1]
        by_cases h2 : twoPow64 ≤ n * 10 + d
        · have h3 : (n * 10 + d) % twoPow64 < n * 10 ∨ (n * 10 + d) % twoPow64 > twoPow64 - 1 := by
            unfold twoPow64 at h1 h2 ⊢; omega
          have : twoPow64 ≤ decValueFrom (n * 10 + d) (leadingDigits cs) := by omega
          rw [if_pos h3, if_pos this]
        · have hmod : (n * 10 + d) % twoPow64 = n * 10 + d := by
            unfold twoPow64 at h2 ⊢; omega
          have h3 : ¬ ((n * 10 + d) % twoPow64 < n * 10 ∨
              (n * 10 + d) % twoPow64 > twoPow64 - 1) := by
            rw [hmod]; unfold twoPow64 at h2 ⊢; omega
          rw [if_neg h3, hmod, ih (n * 10 + d) (by omega)]
          simp

theorem ParseUint_spec (s : GoString) (hs : s ≠ []) :
    ParseUint s =
      if twoPow64 ≤ decValue (leadingDigits s) then (twoPow64 - 1, NumErr.rangeErr)
      else if leadingDigits s = s then (decValue s, NumErr.ok)
      else (0, NumErr.syntaxErr) := by
  cases s with
  | nil => exact absurd rfl hs
  | cons c cs =>
    unfold ParseUint
    exact parseUintLoop_spec (c :: cs) 0 (by decide)

theorem strconvParseInt_cons (c : Char) (cs : GoString) :
    strconvParseInt (c :: cs) =
      match ParseUint (unsignedPart (c :: cs)) with
      | (_, NumErr.syntaxErr) => (0, NumErr.syntaxErr)
      | (un, _) =>
        if ¬ decide (c = '-') = true ∧ un ≥ twoPow63 then ((twoPow63 : Int) - 1, NumErr.rangeErr)
        else if decide (c = '-') = true ∧ un > twoPow63 then (-(twoPow63 : Int), NumErr.rangeErr)
        else (if decide (c = '-') = true then -(un : Int) else (un : Int), NumErr.ok) := rfl

/-- The value of `utils.ParseInt64` on a token, case by case. -/
theorem ParseInt64_cons_value (c : Char) (cs : GoString) :
    ParseInt64 (c :: cs) =
      if unsignedPart (c :: cs) = [] then 0
      else if twoPow64 ≤ decValue (leadingDigits (unsignedPart (c :: cs))) then
        (if c = '-' then -(twoPow63 : Int) else (twoPow63 : Int) - 1)
      else if leadingDigits (unsignedPart (c :: cs)) = unsignedPart (c :: cs) then
        (if ¬ c = '-' ∧ decValue (unsignedPart (c :: cs)) ≥ twoPow63 then (twoPow63 : Int) - 1
         else if c = '-' ∧ decValue (unsignedPart (c :: cs)) > twoPow63 then -(twoPow63 : Int)
         else if c = '-' then -((decValue (unsignedPart (c :: cs)) : Nat) : Int)
         else ((decValue (unsignedPart (c :: cs)) : Nat) : Int))
      else 0 := by
  unfold ParseInt64
  rw [strconvParseInt_cons]
  generalize unsignedPart (c :: cs) = body
  by_cases hb : body = []
  · subst hb
    simp [ParseUint]
  · rw [if_neg hb, ParseUint_spec body hb]
    by_cases hov : twoPow64 ≤ decValue (leadingDigits body)
    · rw [if_pos hov, if_pos hov]
      by_cases hneg : c = '-'
      · simp [hneg, twoPow63, twoPow64]
      · simp [hneg, twoPow63, twoPow64]
    · rw [if_neg hov, if_neg hov]
      by_cases hall : leadingDigits body = body
      · rw [if_pos hall, if_pos hall]
        by_cases hneg : c = '-'
        · by_cases h1 : decValue body > twoPow63
          · simp [hneg, h1]
          · simp [hneg, h1]
        · by_cases h1 : decValue body ≥ twoPow63
          · simp [hneg, h1]
          · simp [hneg, h1]
      · rw [if_neg hall, if_neg hall]

theorem isNumeralToken_iff (tok : GoString) :
    isNumeralToken tok = true ↔
      unsignedPart tok ≠ [] ∧ leadingDigits (unsignedPart tok) = unsignedPart tok := by
  rw [leadingDigits_eq_self_iff]
  simp [isNumeralToken, allDigits, List.isEmpty_iff]

theorem head_eq_minus_iff (c : Char) (cs : GoString) :
    (c :: cs).head? = some '-' ↔ c = '-' := by
  simp

/-- The value of a token, case by case. -/
theorem tokenValue_cons (c : Char) (cs : GoString) :
    tokenValue (c :: cs) =
      if unsignedPart (c :: cs) ≠ [] ∧
          leadingDigits (unsignedPart (c :: cs)) = unsignedPart (c :: cs) then
        (if c = '-' then -((decValue (unsignedPart (c :: cs)) : Nat) : Int)
         else ((decValue (unsignedPart (c :: cs)) : Nat) : Int))
      else 0 := by
  unfold tokenValue
  by_cases hn : isNumeralToken (c :: cs) = true
  · rw [if_pos hn, if_pos ((isNumeralToken_iff _).mp hn)]
    by_cases hneg : c = '-'
    · rw [if_pos ((head_eq_minus_iff c cs).mpr hneg), if_pos hneg]
    · rw [if_neg (fun h => hneg ((head_eq_minus_iff c cs).mp h)), if_neg hneg]
  · rw [if_neg hn, if_neg (fun h => hn ((isNumeralToken_iff _).mpr h))]

/-- Unless the token overflows early, `utils.ParseInt64` gives a value `<= 0`
exactly for the tokens that denote a value `<= 0`. -/
theorem ParseInt64_nonpos_iff (tok : GoString) (h : overflowsEarly tok = false) :
    ParseInt64 tok ≤ 0 ↔ tokenValue tok ≤ 0 := by
  cases tok with
  | nil => decide
  | cons c cs =>
    have hov : ¬ ((¬ (unsignedPart (c :: cs) ≠ [] ∧
          leadingDigits (unsignedPart (c :: cs)) = unsignedPart (c :: cs))) ∧
        ¬ c = '-' ∧ twoPow64 ≤ decValue (leadingDigits (unsignedPart (c :: cs)))) := by
      rintro ⟨h1, h2, h3⟩
      have hn : isNumeralToken (c :: cs) = false := by
        cases hq : isNumeralToken (c :: cs) with
        | false => rfl
        | true => exact absurd ((isNumeralToken_iff _).mp hq) h1
      have : overflowsEarly (c :: cs) = true := by
        simp [overflowsEarly, hn, h2, h3]
      rw [h] at this
      exact Bool.false_ne_true this
    rw [ParseInt64_cons_value, tokenValue_cons]
    generalize unsignedPart (c :: cs) = body at hov ⊢
    by_cases hb : body = []
    · rw [if_pos hb, if_neg (fun q => q.1 hb)]
    · rw [if_neg hb]
      by_cases hbig : twoPow64 ≤ decValue (leadingDigits body)
      · rw [if_pos hbig]
        by_cases hneg : c = '-'
        · rw [if_pos hneg]
          by_cases hd : leadingDigits body = body
          · rw [if_pos ⟨hb, hd⟩, if_pos hneg]
            unfold twoPow63; omega
          · rw [if_neg (fun q => hd q.2)]
            unfold twoPow63; omega
        · rw [if_neg hneg]
          have hd : leadingDigits body = body := by
            by_contra hd
            exact hov ⟨fun q => hd q.2, hneg, hbig⟩
          rw [if_pos ⟨hb, hd⟩, if_neg hneg]
          rw [hd] at hbig
          unfold twoPow63; unfold twoPow64 at hbig; omega
      · rw [if_neg hbig]
        by_cases hd : leadingDigits body = body
        · rw [if_pos hd,
            if_pos (show body ≠ [] ∧ leadingDigits body = body from ⟨hb, hd⟩)]
          by_cases hneg : c = '-'
          · rw [if_neg (fun q => q.1 hneg), if_pos hneg]
            by_cases h1 : decValue body > twoPow63
            · rw [if_pos ⟨hneg, h1⟩]
              unfold twoPow63; omega
            · rw [if_neg (fun q => h1 q.2)]
          · by_cases h1 : decValue body ≥ twoPow63
            · rw [if_pos ⟨hneg, h1⟩, if_neg hneg]
              unfold twoPow63 at h1 ⊢; omega
            · rw [if_neg (fun q => h1 q.2), if_neg (fun q => hneg q.1), if_neg hneg]
        · rw [if_neg hd, if_neg (fun q => hd q.2)]

theorem atoiFastLoop_not_digits (s : GoString) :
    ∀ n : Int, ¬ allDigits s → atoiFastLoop n s = none := by
  induction s with
  | nil => intro n h; exact absurd (fun c hc => by cases hc) h
  | cons c cs ih =>
    intro n h
    cases hd : digitVal c with
    | none => simp [atoiFastLoop, hd]
    | some d =>
      simp only [atoiFastLoop, hd]
      apply ih
      intro hcs
      apply h
      intro x hx
      rcases List.mem_cons.mp hx with rfl | hx
      · simp [hd]
      · exact hcs x hx

/-- Unless the token overflows early, `utils.ParseInt` gives a value `<= 0`
exactly for the tokens that denote a value `<= 0`. -/
theorem ParseInt_nonpos_iff (tok : GoString) (h : overflowsEarly tok = false) :
    ParseInt tok ≤ 0 ↔ tokenValue tok ≤ 0 := by
  have hslow : ParseInt64 tok ≤ 0 ↔ tokenValue tok ≤ 0 := ParseInt64_nonpos_iff tok h
  unfold ParseInt Atoi
  split
  · cases tok with
    | nil => decide
    | cons c cs =>
      have hbody : (if c = '-' ∨ c = '+' then cs else c :: cs) = unsignedPart (c :: cs) := by
        show _ = (if c = '+' ∨ c = '-' then cs else c :: cs)
        by_cases h1 : c = '+' ∨ c = '-'
        · rw [if_pos h1, if_pos h1.symm]
        · rw [if_neg h1, if_neg (fun q => h1 q.symm)]
      simp only [hbody]
      rw [tokenValue_cons]
      generalize unsignedPart (c :: cs) = body
      by_cases hb : body = []
      · simp [hb]
      · have hlen : ¬ body.length < 1 := by
          cases body with
          | nil => exact absurd rfl hb
          | cons x xs => simp
        rw [if_neg hlen]
        have hall := leadingDigits_eq_self_iff body
        by_cases hd : leadingDigits body = body
        · have := atoiFastLoop_digits body 0 (hall.mp hd)
          simp only [Nat.cast_zero] at this
          rw [this, if_pos ⟨hb, hd⟩]
          simp only [decValue]
        · rw [atoiFastLoop_not_digits body 0 (fun q => hd (hall.mpr q)),
            if_neg (fun q => hd q.2)]
  · exact hslow

theorem overflowsEarly_of_pos (tok : GoString) (h : 0 < tokenValue tok) :
    overflowsEarly tok = false := by
  have hn : isNumeralToken tok = true := by
    cases hq : isNumeralToken tok with
    | true => rfl
    | false =>
      unfold tokenValue at h
      rw [hq] at h
      simp at h
  simp [overflowsEarly, hn]

/-- C4, amended: failure conditions of `parseReportFileName`. Let `base` be the
file name with surrounding white space trimmed and the suffix `.txt` then
stripped. If `base` does not split on `_` into exactly three tokens, or its
first token is not `nmt`, decoding fails with the format error on `base`. If
the format is right and the second token denotes a value `<= 0`, decoding
fails with `invalid pid`; if the second token denotes a positive value and the
third a value `<= 0`, decoding fails with `invalid ts`. Here a decimal numeral
with an optional sign denotes the integer it writes and any other token
counts as 0; the one kind of token left out is a non-numeral without minus
sign whose leading digits already denote `2^64` or more. In every failing
case the returned pid and ts are both 0. -/
theorem parseReportFileName_failures (name : GoString) :
    ((Split (CutSuffix (TrimSpace name) ".txt".toList).1 '_').length ≠ 3 ∨
        (Split (CutSuffix (TrimSpace name) ".txt".toList).1 '_').head? ≠ some "nmt".toList →
      parseReportFileName name =
        (0, 0, some (DecodeError.invalidFormat (CutSuffix (TrimSpace name) ".txt".toList).1))) ∧
    (∀ p1 p2, Split (CutSuffix (TrimSpace name) ".txt".toList).1 '_' = ["nmt".toList, p1, p2] →
      overflowsEarly p1 = false → tokenValue p1 ≤ 0 →
      parseReportFileName name = (0, 0, some (DecodeError.invalidPid p1))) ∧
    (∀ p1 p2, Split (CutSuffix (TrimSpace name) ".txt".toList).1 '_' = ["nmt".toList, p1, p2] →
      0 < tokenValue p1 → overflowsEarly p2 = false → tokenValue p2 ≤ 0 →
      parseReportFileName name = (0, 0, some (DecodeError.invalidTs p2))) ∧
    (∀ e, (parseReportFileName name).2.2 = some e →
      (parseReportFileName name).1 = 0 ∧ (parseReportFileName name).2.1 = 0) := by
  refine ⟨?_, ?_, ?_, parseReportFileName_err_zero name⟩
  · intro h
    rw [parseReportFileName_of_parts]
    generalize Split (CutSuffix (TrimSpace name) ".txt".toList).1 '_' = parts at h ⊢
    rcases parts with _ | ⟨p0, _ | ⟨p1, _ | ⟨p2, _ | ⟨p3, ps⟩⟩⟩⟩
    · rfl
    · rfl
    · rfl
    · have h0 : p0 ≠ "nmt".toList := by
        rcases h with h | h
        · simp at h
        · simpa using h
      simp only
      rw [if_pos h0]
    · rfl
  · intro p1 p2 hs ho hv
    have hp : ParseInt p1 ≤ 0 := (ParseInt_nonpos_iff p1 ho).mpr hv
    rw [parseReportFileName_of_parts, hs]
    simp only [ne_eq, not_true_eq_false, if_false, hp, if_true]
  · intro p1 p2 hs hv1 ho hv2
    have hp : ¬ ParseInt p1 ≤ 0 := by
      intro q
      have := (ParseInt_nonpos_iff p1 (overflowsEarly_of_pos p1 hv1)).mp q
      omega
    have ht : ParseInt64 p2 ≤ 0 := (ParseInt64_nonpos_iff p2 ho).mpr hv2
    rw [parseReportFileName_of_parts, hs]
    simp only [ne_eq, not_true_eq_false, if_false, hp, ht, if_true]

/-- Counterexample to C4 as stated. The name ` nmt_1_2.txt` (leading blank)
with its suffix stripped has the first token ` nmt`, which is not `nmt`, yet
decoding succeeds, because the name is trimmed first. And in
`nmt_1_99999999999999999999x.txt` the third token is no numeral, so it counts
as 0 by the rule of the claim, yet decoding succeeds: `strconv.ParseInt` stops
at the digit that overflows and returns the largest `int64`. -/
theorem parseReportFileName_failures_counterexample :
    ((Split (CutSuffix " nmt_1_2.txt".toList ".txt".toList).1 '_').head? ≠ some "nmt".toList ∧
      parseReportFileName " nmt_1_2.txt".toList = (1, 2, none)) ∧
    (Split (CutSuffix "nmt_1_99999999999999999999x.txt".toList ".txt".toList).1 '_' =
        ["nmt".toList, "1".toList, "99999999999999999999x".toList] ∧
      isNumeralToken "99999999999999999999x".toList = false ∧
      tokenValue "99999999999999999999x".toList = 0 ∧
      parseReportFileName "nmt_1_99999999999999999999x.txt".toList =
        (1, 9223372036854775807, none)) := by
  decide

/-- Witness of C4 as amended: a name of the wrong shape, a pid token that
denotes 0, a pid token that denotes -5, and a ts token that is no numeral. -/
theorem parseReportFileName_failures_witness :
    parseReportFileName "report.txt".toList =
        (0, 0, some (DecodeError.invalidFormat "report".toList)) ∧
    parseReportFileName "nmt_0_5.txt".toList =
        (0, 0, some (DecodeError.invalidPid "0".toList)) ∧
    parseReportFileName "nmt_-5_-7.txt".toList =
        (0, 0, some (DecodeError.invalidPid "-5".toList)) ∧
    parseReportFileName "nmt_7_-7.txt".toList =
        (0, 0, some (DecodeError.invalidTs "-7".toList)) ∧
    parseReportFileName "nmt_7_x.txt".toList =
        (0, 0, some (DecodeError.invalidTs "x".toList)) :=
  ⟨(parseReportFileName_failures "report.txt".toList).1 (Or.inl (by decide)),
   (parseReportFileName_failures "nmt_0_5.txt".toList).2.1 "0".toList "5".toList
      (by decide) (by decide) (by decide),
   (parseReportFileName_failures "nmt_-5_-7.txt".toList).2.1 "-5".toList "-7".toList
      (by decide) (by decide) (by decide),
   (parseReportFileName_failures "nmt_7_-7.txt".toList).2.2.1 "7".toList "-7".toList
      (by decide) (by decide) (by decide) (by decide),
   (parseReportFileName_failures "nmt_7_x.txt".toList).2.2.1 "7".toList "x".toList
      (by decide) (by decide) (by decide) (by decide)⟩

/-- Counterexample to C10 as stated: the name `nmt_53732_1764484822` lacks the
suffix `.txt` and decodes without error. -/
theorem parseReportFileName_suffix_counterexample :
    HasSuffix "nmt_53732_1764484822".toList ".txt".toList = false ∧
    parseReportFileName "nmt_53732_1764484822".toList = (53732, 1764484822, none) := by
  decide

/-- C10, amended: `parseReportFileName` strips the suffix `.txt` when it is
there and does not require it: a name without surrounding white space that
lacks the suffix decodes exactly as that name with `.txt` appended. The
restriction to names ending in `.txt` is made by the caller: for every path
that does not end in `.txt` the walk function of `ListNMTReports` never
decodes the name; it leaves the scan unchanged and returns nil, or the error
`filepath.Walk` handed in when there is one. -/
theorem parseReportFileName_suffix_optional (name : GoString)
    (hfirst : ∀ x ∈ name.head?, isSpace x = false)
    (hlast : ∀ x ∈ name.getLast?, isSpace x = false)
    (hs : HasSuffix name ".txt".toList = false) :
    parseReportFileName name = parseReportFileName (name ++ ".txt".toList) ∧
    ∀ (retention beginTS endTS : Int) (st : ScanState) (e : WalkEntry),
      HasSuffix e.path ".txt".toList = false →
      walkFn retention beginTS endTS st e =
        (st, if e.walkErr then some (WalkError.walk e.path) else none) := by
  constructor
  · have h1 : TrimSpace name = name := TrimSpace_eq_self name hfirst hlast
    have h2 : TrimSpace (name ++ ".txt".toList) = name ++ ".txt".toList := by
      apply TrimSpace_eq_self
      · intro x hx
        cases name with
        | nil =>
          have : x = '.' := by simpa using hx.symm
          subst this; decide
        | cons a t => exact hfirst x (by simpa using hx)
      · intro x hx
        have : x = 't' := by
          have e : name ++ ".txt".toList = (name ++ ".tx".toList) ++ ['t'] := by simp
          rw [e, List.getLast?_concat] at hx
          simpa using hx.symm
        subst this; decide
    have h3 : (CutSuffix name ".txt".toList).1 = name := by
      unfold CutSuffix
      rw [hs]; rfl
    rw [parseReportFileName_of_parts, parseReportFileName_of_parts, h1, h2, h3,
      CutSuffix_append]
  · intro retention beginTS endTS st e hsuf
    unfold walkFn
    by_cases he : e.walkErr = true
    · rw [if_pos he, if_pos he]
    · rw [if_neg he, if_neg he]
      simp only [hsuf, Bool.false_eq_true, not_false_eq_true, if_true, ite_self]

/-- Witness of C10 as amended: the name of the fixture without its suffix
decodes as with it, and the walk function leaves `README.md` undecoded, with
nil when no error is handed in and with the handed-in error otherwise. -/
theorem parseReportFileName_suffix_optional_witness :
    parseReportFileName "nmt_53732_1764484822".toList =
      parseReportFileName ("nmt_53732_1764484822".toList ++ ".txt".toList) ∧
    walkFn 60 0 1764484823 { reports := [], removed := [], logged := [] }
        { path := "../fixtures/README.md".toList, walkErr := false, isDir := false,
          now := ⟨1764484830, 0⟩, content := some [], removeFails := false } =
      ({ reports := [], removed := [], logged := [] }, none) ∧
    walkFn 60 0 1764484823 { reports := [], removed := [], logged := [] }
        { path := "../fixtures/README.md".toList, walkErr := true, isDir := false,
          now := ⟨1764484830, 0⟩, content := none, removeFails := false } =
      ({ reports := [], removed := [], logged := [] },
        some (WalkError.walk "../fixtures/README.md".toList)) :=
  have h := parseReportFileName_suffix_optional "nmt_53732_1764484822".toList
    (by decide) (by decide) (by decide)
  ⟨h.1,
   h.2 60 0 1764484823 { reports := [], removed := [], logged := [] }
     { path := "../fixtures/README.md".toList, walkErr := false, isDir := false,
       now := ⟨1764484830, 0⟩, content := some [], removeFails := false } (by decide),
   h.2 60 0 1764484823 { reports := [], removed := [], logged := [] }
     { path := "../fixtures/README.md".toList, walkErr := true, isDir := false,
       now := ⟨1764484830, 0⟩, content := none, removeFails := false } (by decide)⟩

/-! ## Lemmas on the directory scan -/

theorem walkFn_eq (retention beginTS endTS : Int) (st : ScanState) (e : WalkEntry) :
    walkFn retention beginTS endTS st e =
      applyOutcome st e (outcome retention beginTS endTS e) := by
  unfold walkFn outcome
  by_cases h1 : e.walkErr = true
  · rw [if_pos h1, if_pos h1]; rfl
  rw [if_neg h1, if_neg h1]
  by_cases h2 : e.isDir = true
  · rw [if_pos h2, if_pos h2]; rfl
  rw [if_neg h2, if_neg h2]
  by_cases h3 : ¬ HasSuffix e.path ".txt".toList = true
  · rw [if_pos h3, if_pos h3]; rfl
  rw [if_neg h3, if_neg h3]
  rcases parseNMTReportMetadata e.path with ⟨m, _ | err⟩
  · simp only
    by_cases h4 : m.Created < expiryBound e.now retention
    · rw [if_pos h4, if_pos h4]; rfl
    rw [if_neg h4, if_neg h4]
    by_cases h5 : m.Created < beginTS ∨ m.Created > endTS
    · rw [if_pos h5, if_pos h5]; rfl
    rw [if_neg h5, if_neg h5]
    cases e.content <;> rfl
  · rfl

theorem Walk_cons (retention beginTS endTS : Int) (e : WalkEntry) (es : List WalkEntry)
    (st : ScanState) :
    Walk retention beginTS endTS (e :: es) st =
      match applyOutcome st e (outcome retention beginTS endTS e) with
      | (st1, some err) => (st1, some err)
      | (st1, none) => Walk retention beginTS endTS es st1 := by
  rw [Walk, walkFn_eq]

theorem Walk_append (retention beginTS endTS : Int) (pre post : List WalkEntry) :
    ∀ st, Walk retention beginTS endTS (pre ++ post) st =
      match Walk retention beginTS endTS pre st with
      | (st1, some err) => (st1, some err)
      | (st1, none) => Walk retention beginTS endTS post st1 := by
  induction pre with
  | nil => intro st; rfl
  | cons e es ih =>
    intro st
    rw [List.cons_append, Walk_cons, Walk_cons]
    rcases applyOutcome st e (outcome retention beginTS endTS e) with ⟨st1, _ | err⟩
    · exact ih st1
    · rfl

/-- The reports and the error of a walk depend on the initial state only
through its reports. -/
theorem Walk_reports_congr (retention beginTS endTS : Int) (dir : List WalkEntry) :
    ∀ st st2 : ScanState, st.reports = st2.reports →
      (Walk retention beginTS endTS dir st).1.reports =
          (Walk retention beginTS endTS dir st2).1.reports ∧
        (Walk retention beginTS endTS dir st).2 = (Walk retention beginTS endTS dir st2).2 := by
  induction dir with
  | nil => intro st st2 h; exact ⟨h, rfl⟩
  | cons e es ih =>
    intro st st2 h
    rw [Walk_cons, Walk_cons]
    cases outcome retention beginTS endTS e with
    | stop err => exact ⟨h, rfl⟩
    | skip => exact ih st st2 h
    | evict => exact ih _ _ h
    | keep r => exact ih _ _ (by simp [h])

theorem Walk_reports_window (retention beginTS endTS : Int) (dir : List WalkEntry) :
    ∀ st : ScanState, (∀ r ∈ st.reports, beginTS ≤ r.Created ∧ r.Created ≤ endTS) →
      ∀ r ∈ (Walk retention beginTS endTS dir st).1.reports,
        beginTS ≤ r.Created ∧ r.Created ≤ endTS := by
  induction dir with
  | nil => intro st h; exact h
  | cons e es ih =>
    intro st h
    rw [Walk_cons]
    cases ho : outcome retention beginTS endTS e with
    | stop err => exact h
    | skip => exact ih st h
    | evict => exact ih _ h
    | keep r0 =>
      apply ih
      intro r hr
      simp only [List.mem_append, List.mem_singleton] at hr
      rcases hr with hr | hr
      · exact h r hr
      · subst hr
        unfold outcome at ho
        split_ifs at ho
        rcases hm : parseNMTReportMetadata e.path with ⟨m, _ | err⟩
        · rw [hm] at ho
          simp only at ho
          split_ifs at ho with h1 h2
          cases hc : e.content with
          | none => rw [hc] at ho; cases ho
          | some lines =>
            rw [hc] at ho
            simp only [Outcome.keep.injEq] at ho
            subst ho
            simp only
            omega
        · rw [hm] at ho; cases ho

theorem addUnix_bounds (now : Clock) (d : Int) :
    (now.sec * 1000000000 + ((now.nsec : Nat) : Int) + d) - 999999999 ≤
        addUnix now d * 1000000000 ∧
      addUnix now d * 1000000000 ≤ now.sec * 1000000000 + ((now.nsec : Nat) : Int) + d := by
  have h1 := Int.tdiv_add_tmod d 1000000000
  have h2 := Int.tmod_lt_of_pos d (show (0 : Int) < 1000000000 by decide)
  have h3 : -1000000000 < Int.tmod d 1000000000 := by
    cases d with
    | ofNat m =>
      exact lt_of_lt_of_le (by decide) (Int.tmod_nonneg (1000000000 : Int) (Int.ofNat_nonneg m))
    | negSucc m =>
      show -1000000000 < -(((m.succ % 1000000000 : Nat)) : Int)
      omega
  have hn : (now.nsec : Nat) < 1000000000 := now.nsec.isLt
  unfold addUnix
  simp only
  split_ifs <;> omega

/-- Without overflow of the duration, the bound of the retention check is
`now - retention*60` in Unix seconds. -/
theorem expiryBound_in_range (now : Clock) (retention : Int)
    (h1 : -153722867 ≤ retention) (h2 : retention ≤ 153722867) :
    expiryBound now retention = now.sec - retention * 60 := by
  have hb := addUnix_bounds now (retentionDuration retention)
  have hd : retentionDuration retention = -retention * 60000000000 := by
    unfold retentionDuration wrapInt64
    omega
  have hn : (now.nsec : Nat) < 1000000000 := now.nsec.isLt
  unfold expiryBound
  rw [hd] at hb ⊢
  omega

/-- For a retention of at least -153722867 minutes the bound of the retention
check is never below `now - retention*60`, overflow of the duration for large
positive retentions included. -/
theorem expiryBound_ge (now : Clock) (retention : Int)
    (h0 : -153722867 ≤ retention) (h63 : retention < 9223372036854775808) :
    now.sec - retention * 60 ≤ expiryBound now retention := by
  have hb := addUnix_bounds now (retentionDuration retention)
  have hd : -retention * 60000000000 ≤ retentionDuration retention := by
    unfold retentionDuration wrapInt64
    omega
  have hn : (now.nsec : Nat) < 1000000000 := now.nsec.isLt
  unfold expiryBound
  omega

theorem Walk_removed_mono (retention beginTS endTS : Int) (p : GoString)
    (dir : List WalkEntry) :
    ∀ st : ScanState, p ∈ st.removed → p ∈ (Walk retention beginTS endTS dir st).1.removed := by
  induction dir with
  | nil => intro st h; exact h
  | cons e es ih =>
    intro st h
    rw [Walk_cons]
    cases outcome retention beginTS endTS e with
    | stop err => exact h
    | skip => exact ih st h
    | evict => exact ih _ (List.mem_append_left _ h)
    | keep r => exact ih _ h

theorem Walk_removeFails (retention beginTS endTS : Int) (f : WalkEntry → Bool)
    (dir : List WalkEntry) :
    ∀ st st2 : ScanState, st.reports = st2.reports →
      (Walk retention beginTS endTS (dir.map (fun x => { x with removeFails := f x })) st).1.reports
        = (Walk retention beginTS endTS dir st2).1.reports := by
  induction dir with
  | nil => intro st st2 h; exact h
  | cons e es ih =>
    intro st st2 h
    rw [List.map_cons, Walk_cons, Walk_cons]
    have ho : outcome retention beginTS endTS { e with removeFails := f e } =
        outcome retention beginTS endTS e := rfl
    rw [ho]
    cases outcome retention beginTS endTS e with
    | stop err => exact h
    | skip => exact ih st st2 h
    | evict => exact ih _ _ h
    | keep r => exact ih _ _ (by simp [h])

theorem outcome_artifact (retention beginTS endTS : Int) (e : WalkEntry) (m : NMTReport)
    (ha : isArtifact e m) :
    outcome retention beginTS endTS e =
      if m.Created < expiryBound e.now retention then Outcome.evict
      else if m.Created < beginTS ∨ m.Created > endTS then Outcome.skip
      else
        match e.content with
        | none => Outcome.stop (WalkError.read e.path)
        | some lines => Outcome.keep { m with NMTEntries := parseNMTEntries lines } := by
  obtain ⟨h1, h2, h3, h4⟩ := ha
  unfold outcome
  rw [if_neg (by simp [h1]), if_neg (by simp [h2]), if_neg (not_not.mpr h3), h4]

/-- Retention eviction for every retention of at least -153722867 minutes: an
artifact whose decoded capture time is below `now - retention*60` at the time
the scan sees it is never part of the returned sequence (the returned sequence
is the one of the listing without the artifact, whatever the window) and, when
the scan reaches it, the removal of its path is issued; and whether removals
fail does not change the returned sequence. -/
theorem ListNMTReports_retention_eviction (retention beginTS endTS : Int)
    (pre post : List WalkEntry) (e : WalkEntry) (m : NMTReport)
    (h0 : -153722867 ≤ retention) (h63 : retention < 9223372036854775808)
    (ha : isArtifact e m) (hexp : m.Created < e.now.sec - retention * 60) :
    ListNMTReports retention (pre ++ e :: post) beginTS endTS =
        ListNMTReports retention (pre ++ post) beginTS endTS ∧
    (∀ st : ScanState,
      (walkFn retention beginTS endTS st e).1.reports = st.reports ∧
      e.path ∈ (walkFn retention beginTS endTS st e).1.removed ∧
      (walkFn retention beginTS endTS st e).2 = none) ∧
    ((scan retention pre beginTS endTS).2 = none →
      e.path ∈ (scan retention (pre ++ e :: post) beginTS endTS).1.removed) ∧
    (∀ f : WalkEntry → Bool,
      ListNMTReports retention
          ((pre ++ e :: post).map (fun x => { x with removeFails := f x })) beginTS endTS =
        ListNMTReports retention (pre ++ e :: post) beginTS endTS) := by
  have hb := expiryBound_ge e.now retention h0 h63
  have ho : outcome retention beginTS endTS e = Outcome.evict := by
    rw [outcome_artifact retention beginTS endTS e m ha, if_pos (by omega)]
  refine ⟨?_, ?_, ?_, ?_⟩
  · unfold ListNMTReports scan
    rw [Walk_append, Walk_append]
    rcases Walk retention beginTS endTS pre { reports := [], removed := [], logged := [] }
      with ⟨st1, _ | err⟩
    · simp only
      rw [Walk_cons, ho]
      simp only [applyOutcome]
      exact (Walk_reports_congr retention beginTS endTS post
        { reports := st1.reports, removed := st1.removed ++ [e.path],
          logged := if e.removeFails = true then st1.logged ++ [e.path] else st1.logged }
        st1 rfl).1
    · rfl
  · intro st
    rw [walkFn_eq, ho]
    simp [applyOutcome]
  · intro hpre
    unfold scan at hpre ⊢
    rw [Walk_append]
    rcases hw : Walk retention beginTS endTS pre { reports := [], removed := [], logged := [] }
      with ⟨st1, _ | err⟩
    · simp only
      rw [Walk_cons, ho]
      simp only [applyOutcome]
      exact Walk_removed_mono _ _ _ _ _ _ (by simp)
    · rw [hw] at hpre; cases hpre
  · intro f
    exact Walk_removeFails retention beginTS endTS f _ _ _ rfl

/-! ## Properties of the directory scan -/

theorem fixture_path_suffix :
    HasSuffix "../fixtures/nmt_53732_1764484822.txt".toList ".txt".toList = true := by
  decide

theorem fixture_path_metadata :
    parseNMTReportMetadata "../fixtures/nmt_53732_1764484822.txt".toList =
      ({ PID := 53732, Created := 1764484822, NMTEntries := [] }, none) := by
  decide

theorem isArtifact_fixtureEntry (now : Clock) (lines : List GoString) (removeFails : Bool) :
    isArtifact (fixtureEntry now lines removeFails)
      { PID := 53732, Created := 1764484822, NMTEntries := [] } :=
  ⟨rfl, rfl, fixture_path_suffix, fixture_path_metadata⟩

/-- Retention eviction on the fixture: with the default retention of 60
minutes, the fixture seen 3601 seconds after its capture time is expired; the
query whose window holds its capture time returns nothing and the removal of
its path is issued. -/
theorem ListNMTReports_retention_eviction_fixture :
    ListNMTReports 60 ([] ++ fixtureEntry ⟨1764488423, 0⟩ [] true :: []) 0 1764484823 =
        ListNMTReports 60 ([] ++ []) 0 1764484823 ∧
    (fixtureEntry ⟨1764488423, 0⟩ [] true).path ∈
      (scan 60 ([] ++ fixtureEntry ⟨1764488423, 0⟩ [] true :: []) 0 1764484823).1.removed :=
  have h := ListNMTReports_retention_eviction 60 0 1764484823 [] []
    (fixtureEntry ⟨1764488423, 0⟩ [] true)
    { PID := 53732, Created := 1764484822, NMTEntries := [] }
    (by decide) (by decide) (isArtifact_fixtureEntry _ _ _) (by decide)
  ⟨h.1, h.2.2.1 rfl⟩

/-- The window check, for every input: every report in the sequence
`ListNMTReports` returns has its capture time in the window. -/
theorem ListNMTReports_window (retention beginTS endTS : Int) (dir : List WalkEntry) :
    ∀ r ∈ ListNMTReports retention dir beginTS endTS,
      beginTS ≤ r.Created ∧ r.Created ≤ endTS :=
  Walk_reports_window retention beginTS endTS dir _ (by simp)

/-- The window check without overflow of the duration: for a retention of at
most 153722867 minutes in absolute value, the call of the walk function for
an artifact that is not expired (`Created >= now - retention*60`) and outside
the window returns nil and leaves the reports and the removals unchanged. -/
theorem walkFn_outside_window (retention beginTS endTS : Int) (st : ScanState)
    (e : WalkEntry) (m : NMTReport)
    (h1 : -153722867 ≤ retention) (h2 : retention ≤ 153722867) (ha : isArtifact e m)
    (hfresh : e.now.sec - retention * 60 ≤ m.Created)
    (hout : m.Created < beginTS ∨ endTS < m.Created) :
    walkFn retention beginTS endTS st e = (st, none) := by
  have hb := expiryBound_in_range e.now retention h1 h2
  rw [walkFn_eq, outcome_artifact retention beginTS endTS e m ha, if_neg (by omega),
    if_pos (by omega)]
  rfl

/-- C2 at its failing input: an artifact that is expired by the rule
`Created < now - retention*60` is returned and not removed. With the retention
flag set to -153722868 minutes the duration
`-time.Duration(-153722868)*time.Minute` overflows `int64` and becomes
negative, so the bound of the retention check lies far in the past
(-7458887164): the artifact `nmt_1_1764484822.txt`, seen at the clock
1764484830, satisfies `Created < now - retention*60` and is in the window
`[0, 1764484900]`, yet it is part of the returned sequence and no removal is
issued. -/
theorem ListNMTReports_retention_overflow :
    isArtifact
      { path := "/tmp/nmt/nmt_1_1764484822.txt".toList, walkErr := false, isDir := false,
        now := ⟨1764484830, 0⟩, content := some [], removeFails := false }
      { PID := 1, Created := 1764484822, NMTEntries := [] } ∧
    (1764484822 : Int) < 1764484830 - (-153722868) * 60 ∧
    expiryBound ⟨1764484830, 0⟩ (-153722868) = -7458887164 ∧
    ListNMTReports (-153722868)
      [{ path := "/tmp/nmt/nmt_1_1764484822.txt".toList, walkErr := false, isDir := false,
         now := ⟨1764484830, 0⟩, content := some [], removeFails := false }]
      0 1764484900 = [{ PID := 1, Created := 1764484822, NMTEntries := [] }] ∧
    (scan (-153722868)
      [{ path := "/tmp/nmt/nmt_1_1764484822.txt".toList, walkErr := false, isDir := false,
         now := ⟨1764484830, 0⟩, content := some [], removeFails := false }]
      0 1764484900).1.removed = [] := by
  refine ⟨⟨rfl, rfl, by decide, by decide⟩, by decide, by decide, by decide, by decide⟩

/-- C1 at its failing input: an artifact outside the window and not expired
has its removal issued. With the retention flag set to 153722868 minutes
the duration `-time.Duration(153722868)*time.Minute` overflows `int64` and
becomes positive, so the bound of the retention check lies in the future: the
artifact `nmt_1_1764484822.txt`, seen 8 seconds after its capture, is not
expired by the rule `Created >= now - retention*60` and is outside the window
`[1764484900, 1764485000]`, yet the removal of its path is issued. -/
theorem ListNMTReports_window_overflow :
    isArtifact
      { path := "/tmp/nmt/nmt_1_1764484822.txt".toList, walkErr := false, isDir := false,
        now := ⟨1764484830, 0⟩, content := some [], removeFails := false }
      { PID := 1, Created := 1764484822, NMTEntries := [] } ∧
    (1764484830 : Int) - 153722868 * 60 ≤ 1764484822 ∧
    (1764484822 : Int) < 1764484900 ∧
    expiryBound ⟨1764484830, 0⟩ 153722868 = 10987856823 ∧
    (scan 153722868
      [{ path := "/tmp/nmt/nmt_1_1764484822.txt".toList, walkErr := false, isDir := false,
         now := ⟨1764484830, 0⟩, content := some [], removeFails := false }]
      1764484900 1764485000).1.removed = ["/tmp/nmt/nmt_1_1764484822.txt".toList] := by
  refine ⟨⟨rfl, rfl, by decide, by decide⟩, by decide, by decide, by decide, by decide⟩

/-- Counterexample to C8 as stated: the walk sees the fixture, which is in
the window and not expired, and then the file `notes.txt`, whose name the
codec rejects. The walk stops with the decode error, but `ListNMTReports`
drops that error and returns the report gathered before it: the caller gets a
partial sequence and no error. -/
theorem ListNMTReports_decode_abort_counterexample :
    (parseReportFileName (Base "../fixtures/notes.txt".toList)).2.2 =
        some (DecodeError.invalidFormat "notes".toList) ∧
    (scan 60
      (fixtureDir ⟨1764484830, 0⟩ ["Total:  reserved=1KB, committed=1KB".toList] false ++
        [{ path := "../fixtures/notes.txt".toList, walkErr := false, isDir := false,
           now := ⟨1764484830, 0⟩, content := some [], removeFails := false }])
      0 1764484823).2 =
        some (WalkError.decode (DecodeError.invalidFormat "notes".toList)) ∧
    ListNMTReports 60
      (fixtureDir ⟨1764484830, 0⟩ ["Total:  reserved=1KB, committed=1KB".toList] false ++
        [{ path := "../fixtures/notes.txt".toList, walkErr := false, isDir := false,
           now := ⟨1764484830, 0⟩, content := some [], removeFails := false }])
      0 1764484823 =
        [{ PID := 53732, Created := 1764484822,
           NMTEntries := [{ Name := "Total".toList, Reserved := 1, Committed := 1 }] }] := by
  decide

/-- C8, amended: a malformed file name stops the walk, and the caller gets
the reports gathered so far without any error. For every listing in which a
regular file whose path ends in `.txt` has a name that `parseReportFileName`
rejects, the walk processes nothing after that file: the state of the scan,
and with it the sequence `ListNMTReports` returns, is the one of the listing
cut before that file; the walk returns the decode error when it reaches the
file, and `ListNMTReports`, whose only result is the slice of reports,
discards it. -/
theorem ListNMTReports_decode_abort (retention beginTS endTS : Int)
    (pre post : List WalkEntry) (bad : WalkEntry) (err : DecodeError)
    (h1 : bad.walkErr = false) (h2 : bad.isDir = false)
    (h3 : HasSuffix bad.path ".txt".toList = true)
    (h4 : (parseReportFileName (Base bad.path)).2.2 = some err) :
    ListNMTReports retention (pre ++ bad :: post) beginTS endTS =
        ListNMTReports retention pre beginTS endTS ∧
    (scan retention (pre ++ bad :: post) beginTS endTS).1 =
        (scan retention pre beginTS endTS).1 ∧
    ((scan retention pre beginTS endTS).2 = none →
      (scan retention (pre ++ bad :: post) beginTS endTS).2 =
        some (WalkError.decode err)) := by
  have hm : parseNMTReportMetadata bad.path =
      ({ PID := 0, Created := 0, NMTEntries := [] }, some err) := by
    rcases hp : parseReportFileName (Base bad.path) with ⟨pid, ts, _ | e1⟩
    · rw [hp] at h4; cases h4
    · rw [hp] at h4
      simp only [Option.some.injEq] at h4
      subst h4
      simp only [parseNMTReportMetadata, hp]
  have ho : outcome retention beginTS endTS bad = Outcome.stop (WalkError.decode err) := by
    unfold outcome
    rw [if_neg (by simp [h1]), if_neg (by simp [h2]), if_neg (not_not.mpr h3), hm]
  have hw : ∀ st, Walk retention beginTS endTS (bad :: post) st =
      (st, some (WalkError.decode err)) := by
    intro st
    rw [Walk_cons, ho]
    rfl
  have hs : scan retention (pre ++ bad :: post) beginTS endTS =
      match scan retention pre beginTS endTS with
      | (st1, some e1) => (st1, some e1)
      | (st1, none) => (st1, some (WalkError.decode err)) := by
    unfold scan
    rw [Walk_append]
    rcases Walk retention beginTS endTS pre { reports := [], removed := [], logged := [] }
      with ⟨st1, _ | e1⟩
    · exact hw st1
    · rfl
  have hst : (scan retention (pre ++ bad :: post) beginTS endTS).1 =
      (scan retention pre beginTS endTS).1 := by
    rw [hs]
    rcases scan retention pre beginTS endTS with ⟨st1, _ | e1⟩ <;> rfl
  refine ⟨?_, hst, ?_⟩
  · unfold ListNMTReports
    rw [hst]
  · intro hpre
    rw [hs]
    rcases hq : scan retention pre beginTS endTS with ⟨st1, _ | e1⟩
    · rfl
    · rw [hq] at hpre; cases hpre

/-- Witness of C8 as amended: the fixture followed by `notes.txt`. -/
theorem ListNMTReports_decode_abort_witness :
    ListNMTReports 60
      (fixtureDir ⟨1764484830, 0⟩ ["Total:  reserved=1KB, committed=1KB".toList] false ++
        { path := "../fixtures/notes.txt".toList, walkErr := false, isDir := false,
          now := ⟨1764484830, 0⟩, content := some [], removeFails := false } :: [])
      0 1764484823 =
    ListNMTReports 60 (fixtureDir ⟨1764484830, 0⟩ ["Total:  reserved=1KB, committed=1KB".toList] false) 0 1764484823 :=
  (ListNMTReports_decode_abort 60 0 1764484823 (fixtureDir ⟨1764484830, 0⟩ ["Total:  reserved=1KB, committed=1KB".toList] false) []
    { path := "../fixtures/notes.txt".toList, walkErr := false, isDir := false,
      now := ⟨1764484830, 0⟩, content := some [], removeFails := false }
    (DecodeError.invalidFormat "notes".toList) rfl rfl (by decide) (by decide)).1

/-- C9 at its failing input: the query of `TestListNMTReports` returns no
report. With the default retention of 60 minutes and the clock 3601 seconds
after the capture time of the fixture, `ListNMTReports(dir, 0, 1764484823)`
returns the empty sequence, where the test expects one report: the fixture is
expired and its removal is issued. -/
theorem ListNMTReports_fixture_expired :
    ListNMTReports 60
      (fixtureDir ⟨1764488423, 0⟩ ["Total:  reserved=5813841KB, committed=382817KB".toList] false)
      0 1764484823 = [] ∧
    (scan 60
      (fixtureDir ⟨1764488423, 0⟩ ["Total:  reserved=5813841KB, committed=382817KB".toList] false)
      0 1764484823).1.removed = ["../fixtures/nmt_53732_1764484822.txt".toList] := by
  decide

/-- The end-to-end query on the fixture. When the artifact is not
expired at the time of the scan, that is `now - retention*60 <= 1764484822`
(for a retention of at most 153722867 minutes in absolute value, so that the
duration does not overflow), `ListNMTReports(dir, 0, 1764484823)` returns
exactly one report, with `PID = 53732`, `Created = 1764484822` and
`NMTEntries = parseNMTEntries` of the lines of the body; and
`ListNMTReports(dir, 0, 1764484821)` returns the empty sequence, whatever the
clock and the retention. -/
theorem ListNMTReports_fixture (retention : Int) (now : Clock) (lines : List GoString)
    (removeFails : Bool) :
    (-153722867 ≤ retention → retention ≤ 153722867 →
      now.sec - retention * 60 ≤ 1764484822 →
      ListNMTReports retention (fixtureDir now lines removeFails) 0 1764484823 =
        [{ PID := 53732, Created := 1764484822, NMTEntries := parseNMTEntries lines }]) ∧
    ListNMTReports retention (fixtureDir now lines removeFails) 0 1764484821 = [] := by
  have ha := isArtifact_fixtureEntry now lines removeFails
  have hdir : ∀ endTS st, Walk retention 0 endTS (fixtureDir now lines removeFails) st =
      Walk retention 0 endTS [fixtureEntry now lines removeFails] st := by
    intro endTS st
    unfold fixtureDir
    rw [Walk_cons]
    rfl
  constructor
  · intro h1 h2 hfresh
    have hb := expiryBound_in_range now retention h1 h2
    have ho : outcome retention 0 1764484823 (fixtureEntry now lines removeFails) =
        Outcome.keep { PID := 53732, Created := 1764484822,
                       NMTEntries := parseNMTEntries lines } := by
      rw [outcome_artifact _ _ _ _ _ ha,
        if_neg (by show ¬ (1764484822 : Int) < expiryBound now retention; omega),
        if_neg (by decide)]
      rfl
    unfold ListNMTReports scan
    rw [hdir, Walk_cons, ho]
    rfl
  · have ho : outcome retention 0 1764484821 (fixtureEntry now lines removeFails) =
        Outcome.evict ∨
        outcome retention 0 1764484821 (fixtureEntry now lines removeFails) = Outcome.skip := by
      rw [outcome_artifact _ _ _ _ _ ha]
      by_cases hexp : (1764484822 : Int) < expiryBound (fixtureEntry now lines removeFails).now
        retention
      · left; rw [if_pos hexp]
      · right; rw [if_neg hexp, if_pos (by decide)]
    unfold ListNMTReports scan
    rw [hdir, Walk_cons]
    rcases ho with ho | ho <;> rw [ho] <;> rfl

/-- The end-to-end query 8 seconds after the capture time, with the default
retention of 60 minutes. -/
theorem ListNMTReports_fixture_fresh :
    ListNMTReports 60
      (fixtureDir ⟨1764484830, 0⟩ ["Total:  reserved=5813841KB, committed=382817KB".toList] false)
      0 1764484823 =
      [{ PID := 53732, Created := 1764484822,
         NMTEntries :=
           parseNMTEntries ["Total:  reserved=5813841KB, committed=382817KB".toList] }] :=
  (ListNMTReports_fixture 60 ⟨1764484830, 0⟩
    ["Total:  reserved=5813841KB, committed=382817KB".toList] false).1
    (by decide) (by decide) (by decide)

/-! ## Line independence of the text parser -/

/-- C7: `parseNMTEntries` is order-preserving and line-independent. It maps
the concatenation of two sequences of lines to the concatenation of their
outputs, so the output is the outputs of the single lines in the order of the
lines; a single line yields at most one region; a line that matches neither
header pattern can be inserted or removed anywhere without changing the
output; and a line occurring twice contributes its regions twice. -/
theorem parseNMTEntries_line_independent :
    (∀ xs ys : List GoString,
        parseNMTEntries (xs ++ ys) = parseNMTEntries xs ++ parseNMTEntries ys) ∧
    (∀ l : GoString, (parseNMTEntries [l]).length ≤ 1) ∧
    (∀ lines : List GoString,
        parseNMTEntries lines = (lines.map (fun l => parseNMTEntries [l])).flatten) ∧
    (∀ (xs ys : List GoString) (l : GoString),
        FindAllStringSubmatch NMT_TOTAL_HEADER_REGEX (TrimSpace l) = none →
        FindAllStringSubmatch NMT_CATEGORY_HEADER_REGEX (TrimSpace l) = none →
        parseNMTEntries (xs ++ l :: ys) = parseNMTEntries (xs ++ ys)) ∧
    (∀ (xs ys zs : List GoString) (l : GoString),
        parseNMTEntries (xs ++ l :: ys ++ l :: zs) =
          parseNMTEntries xs ++ parseNMTEntries [l] ++ parseNMTEntries ys ++
            parseNMTEntries [l] ++ parseNMTEntries zs) := by
  refine ⟨parseNMTEntries_append, ?_, ?_, ?_, ?_⟩
  · intro l; rw [parseNMTEntries_singleton]; exact parseLine_length_le l
  · intro lines
    simp only [parseNMTEntries_singleton]
    exact parseNMTEntries_eq_join lines
  · intro xs ys l h1 h2
    have : l :: ys = [l] ++ ys := rfl
    rw [this, parseNMTEntries_append, parseNMTEntries_append, parseNMTEntries_append,
      parseNMTEntries_singleton, parseLine_eq_nil l h1 h2]
    simp
  · intro xs ys zs l
    simp [parseNMTEntries_eq_join]

/-- Witness of C7 on lines of the fixture: a detail line between the total
header and a category header does not change the output, and the total header
given twice yields two regions named `Total`. -/
theorem parseNMTEntries_line_independent_witness :
    parseNMTEntries
        ["Total:  reserved=5813841KB, committed=382817KB".toList,
         "       (malloc=1KB #2)".toList,
         "-   Java Heap (reserved=4194304KB, committed=157696KB)".toList] =
      parseNMTEntries
        ["Total:  reserved=5813841KB, committed=382817KB".toList,
         "-   Java Heap (reserved=4194304KB, committed=157696KB)".toList] ∧
    parseNMTEntries
        ["Total:  reserved=5813841KB, committed=382817KB".toList,
         "Total:  reserved=5813841KB, committed=382817KB".toList] =
      [{ Name := "Total".toList, Reserved := 5813841, Committed := 382817 },
       { Name := "Total".toList, Reserved := 5813841, Committed := 382817 }] :=
  ⟨parseNMTEntries_line_independent.2.2.2.1
      ["Total:  reserved=5813841KB, committed=382817KB".toList]
      ["-   Java Heap (reserved=4194304KB, committed=157696KB)".toList]
      "       (malloc=1KB #2)".toList (by decide) (by decide),
    by decide⟩

end NMTScope
